import Mathlib

/-! Heap-file manager (`heapfile.C`): embedding and verification

The heap-file layer of `heapfile.C` is embedded as pure functions on an explicit
state.  The collaborators that `heapfile.C` calls but that live outside it (the
slotted page, the page cache, the storage volume) are modelled from their
contracts; the functions of `heapfile.C` itself are translated statement by
statement.

Conventions of the embedding:

* a pointer into the buffer pool (`curPage`, `newPage`) is represented by the number
  of the page it was handed out for, `none` being the null pointer; reading through
  the pointer reads that page of the file, also after the page has been unpinned;
* `headerPage` always points at the header frame, whose content is `File.hdr`;
* the `int` member `recCnt` is incremented and decremented modulo 2^32 (`wrap32`);
* a modification of a page reaches the backing storage only if the page is unpinned
  dirty; the frames of a file are given up when its last open is closed;
* an out-parameter is returned as an `Option`: `none` when the call did not assign it;
* a loop that the source runs until a page-chain condition holds takes a fuel
  argument and returns `none` when the fuel runs out.
-/

namespace HeapFileManager

/-! ## Status codes, record identifiers, records -/

/-- Status codes of `error.h` that `heapfile.C` and its collaborators return. -/
inductive Status where
  | OK
  | FILEEXISTS
  | FILEEOF
  | NORECORDS
  | INVALIDRECLEN
  | BADSCANPARM
  | NOSPACE
  | INVALIDSLOTNO
  | ENDOFPAGE
  | PAGENOTPINNED
  | BADPAGENO
  | BUFFEREXCEEDED
  | UNIXERR
  | FILEOPEN
  deriving DecidableEq, Repr, Inhabited

/-- Record identifier: page number and slot number. -/
structure RID where
  pageNo : Int
  slotNo : Int
  deriving DecidableEq, Repr, Inhabited

/-- The constant `NULLRID`. -/
def NULLRID : RID := { pageNo := -1, slotNo := -1 }

/-- Record: `data` are the bytes the `data` pointer refers to, `length` is the
`int length` member. -/
structure Record where
  data : List Nat
  length : Int
  deriving DecidableEq, Repr, Inhabited

/-- The enumeration `Datatype`; `other` stands for a value outside the enumerators. -/
inductive Datatype where
  | STRING
  | INTEGER
  | FLOAT
  | other (code : Nat)
  deriving DecidableEq, Repr, Inhabited

/-- The enumeration `Operator`; `other` stands for a value outside the enumerators. -/
inductive Operator where
  | LT
  | LTE
  | EQ
  | GTE
  | GT
  | NE
  | other (code : Nat)
  deriving DecidableEq, Repr, Inhabited

/-- Value of `sizeof(int)` on the platform. -/
def sizeofInt : Int := 4

/-- Value of `sizeof(float)` on the platform. -/
def sizeofFloat : Int := 4

/-- Conversion `(unsigned int) n` of an `int`. -/
def toUnsigned (n : Int) : Nat := (n % 4294967296).toNat

/-- Wrap-around of a signed 32-bit result. -/
def wrap32 (n : Int) : Int := (n + 2147483648) % 4294967296 - 2147483648

/-! ## The slotted page -/

/-- Modelled from the spec: the slotted page (class `Page`, not part of
`heapfile.C`).  A page knows its own number, carries the next-page link and stores
records in slots addressed by slot number; a deleted slot stays in place and is
empty.  `freeSpace` is the payload the page can still take. -/
structure Page where
  curPage : Int
  nextPage : Int
  slots : List (Option Record)
  freeSpace : Nat
  deriving DecidableEq, Repr, Inhabited

namespace Page

/-- Modelled from the spec: `Page::init(pageNo)` resets the slot structure; an
empty page can take the maximum payload `PAGESIZE - DPFIXED`. -/
def init (PAGESIZE DPFIXED : Nat) (pageNo : Int) : Page :=
  { curPage := pageNo, nextPage := -1, slots := [], freeSpace := PAGESIZE - DPFIXED }

/-- The record as it is stored: `length` bytes copied from the caller's buffer. -/
def stored (rec : Record) : Record :=
  { data := rec.data.take rec.length.toNat, length := rec.length }

/-- Modelled from the spec: `Page::insertRecord` puts the record into a new slot
and fails with `NOSPACE` when the page is full. -/
def insertRecord (p : Page) (rec : Record) : Except Status (RID × Page) :=
  if rec.length.toNat ≤ p.freeSpace then
    .ok ({ pageNo := p.curPage, slotNo := p.slots.length },
         { p with slots := p.slots ++ [some (stored rec)],
                  freeSpace := p.freeSpace - rec.length.toNat })
  else .error Status.NOSPACE

/-- The content of slot `slotNo`, when that slot exists and is occupied. -/
def slotAt (p : Page) (slotNo : Int) : Option Record :=
  if 0 ≤ slotNo then (p.slots.getD slotNo.toNat none) else none

/-- Modelled from the spec: `Page::getRecord` looks the record up by slot. -/
def getRecord (p : Page) (rid : RID) : Except Status Record :=
  match p.slotAt rid.slotNo with
  | some r => .ok r
  | none => .error Status.INVALIDSLOTNO

/-- Modelled from the spec: `Page::deleteRecord` empties the slot of the record. -/
def deleteRecord (p : Page) (rid : RID) : Except Status Page :=
  match p.slotAt rid.slotNo with
  | some r =>
      .ok { p with slots := p.slots.set rid.slotNo.toNat none,
                   freeSpace := p.freeSpace + r.length.toNat }
  | none => .error Status.INVALIDSLOTNO

/-- First occupied slot among `slots`, which start at slot number `base`. -/
def firstOccupied : List (Option Record) → Nat → Option Nat
  | [], _ => none
  | some _ :: _, base => some base
  | none :: rest, base => firstOccupied rest (base + 1)

/-- Modelled from the spec: `Page::firstRecord`, the first occupied slot of the
forward iteration; fails with `NORECORDS` on a page without records. -/
def firstRecord (p : Page) : Except Status RID :=
  match firstOccupied p.slots 0 with
  | some i => .ok { pageNo := p.curPage, slotNo := i }
  | none => .error Status.NORECORDS

/-- Modelled from the spec: `Page::nextRecord`, the first occupied slot after the
slot of `curRid`; fails with `ENDOFPAGE` at the end. -/
def nextRecord (p : Page) (curRid : RID) : Except Status RID :=
  let start := (curRid.slotNo + 1).toNat
  match firstOccupied (p.slots.drop start) start with
  | some i => .ok { pageNo := p.curPage, slotNo := i }
  | none => .error Status.ENDOFPAGE

/-- Modelled from the spec: `Page::getNextPage`, the chain-link accessor. -/
def getNextPage (p : Page) : Status × Int := (Status.OK, p.nextPage)

/-- Modelled from the spec: `Page::setNextPage`, the chain-link mutator. -/
def setNextPage (p : Page) (pageNo : Int) : Status × Page :=
  (Status.OK, { p with nextPage := pageNo })

end Page

/-! ## The file and the page cache -/

/-- The header page `FileHdrPage`.  Its counters are `int` members: the updates that
`heapfile.C` makes to `recCnt` are reduced by `wrap32`. -/
structure FileHdrPage where
  fileName : String
  firstPage : Int
  lastPage : Int
  pageCnt : Int
  recCnt : Int
  deriving DecidableEq, Repr, Inhabited

/-- A call issued to the page cache. -/
inductive CacheCall where
  | readPage (pageNo : Int)
  | unPinPage (pageNo : Int) (dirtyFlag : Bool)
  | allocPage
  | flushFile
  deriving DecidableEq, Repr, Inhabited

/-- Modelled from the spec: one file of the storage volume together with the page
cache's view of it (classes `File` and `BufMgr`, not part of `heapfile.C`).  While
the file is open the cache is coherent: `pages` is the content of the frame of
every data page, `hdr` the content of the frame of the header page, `pinCnt` the pin
count per page and `dirty` whether a page was unpinned dirty since it was last
written.  `diskHdr` and `diskPages` are the header page and the data pages as the
backing storage holds them.  `valid` tells which page numbers exist, `nextNo` is the
number the next allocation hands out and `allocLeft` how many allocations the
volume still grants.  `firstPageNo` is the first physical page (`-1` when the file
has no page), `openCnt` the number of times the file is open, and `log` the cache
calls issued on the file so far, latest first. -/
structure File where
  hdr : FileHdrPage
  pages : Int → Page
  valid : Int → Bool
  pinCnt : Int → Nat
  dirty : Int → Bool
  firstPageNo : Int
  nextNo : Int
  allocLeft : Nat
  openCnt : Nat
  log : List CacheCall
  diskHdr : FileHdrPage
  diskPages : Int → Page

/-- A zero-initialised page frame. -/
def Page.zero : Page := { curPage := 0, nextPage := 0, slots := [], freeSpace := 0 }

/-- Modelled from the spec: a file as the volume creates it, without any page. -/
def File.empty (firstNo : Int) (quota : Nat) : File :=
  { hdr := { fileName := "", firstPage := 0, lastPage := 0, pageCnt := 0, recCnt := 0 },
    pages := fun _ => Page.zero,
    valid := fun _ => false,
    pinCnt := fun _ => 0,
    dirty := fun _ => false,
    firstPageNo := -1,
    nextNo := firstNo,
    allocLeft := quota,
    openCnt := 0,
    log := [],
    diskHdr := { fileName := "", firstPage := 0, lastPage := 0, pageCnt := 0, recCnt := 0 },
    diskPages := fun _ => Page.zero }

/-- Modelled from the spec: the cache persists the pages marked dirty ("if dirty,
marks for eventual persistence"): their frame content goes to the backing storage
and the marks are cleared.  A page that was modified but unpinned clean is not
written. -/
def File.writeBack (f : File) : File :=
  { f with diskHdr := if f.dirty f.firstPageNo then f.hdr else f.diskHdr,
           diskPages := fun p => if f.dirty p then f.pages p else f.diskPages p,
           dirty := fun _ => false }

/-- Modelled from the spec: the cache gives up the frames of the file that are not
pinned, persisting the dirty ones first ("persists on eviction"); a later read of
such a page gets it from the backing storage ("reads from backing storage if not
cached"). -/
def File.dropFrames (f : File) : File :=
  let g := f.writeBack
  { g with hdr := if 0 < g.pinCnt g.firstPageNo then g.hdr else g.diskHdr,
           pages := fun p => if 0 < g.pinCnt p then g.pages p else g.diskPages p }

/-- Modelled from the spec: `File::close`, called once per open; it fails for a file
that is not open.  When the last open is closed the cache gives up the frames of the
file. -/
def File.close (f : File) : Status × File :=
  if 0 < f.openCnt then
    (Status.OK,
      if f.openCnt - 1 = 0 then { f.dropFrames with openCnt := f.openCnt - 1 }
      else { f with openCnt := f.openCnt - 1 })
  else (Status.UNIXERR, f)

/-- Point update of a function on page numbers. -/
def setAt {α : Type} (f : Int → α) (k : Int) (v : α) : Int → α :=
  fun q => if q = k then v else f q

namespace BufMgr

/-- Modelled from the spec: `BufMgr::readPage` pins an existing page and hands out
its frame; it fails for a page number the file does not have. -/
def readPage (f : File) (pageNo : Int) : Status × File :=
  let f0 := { f with log := CacheCall.readPage pageNo :: f.log }
  if f.valid pageNo then
    (Status.OK, { f0 with pinCnt := setAt f.pinCnt pageNo (f.pinCnt pageNo + 1) })
  else (Status.BADPAGENO, f0)

/-- Modelled from the spec: `BufMgr::unPinPage` decrements the pin count and
records the dirty flag; it fails for a page that is not pinned. -/
def unPinPage (f : File) (pageNo : Int) (dirtyFlag : Bool) : Status × File :=
  let f0 := { f with log := CacheCall.unPinPage pageNo dirtyFlag :: f.log }
  if 0 < f.pinCnt pageNo then
    (Status.OK, { f0 with pinCnt := setAt f.pinCnt pageNo (f.pinCnt pageNo - 1),
                          dirty := setAt f.dirty pageNo (f.dirty pageNo || dirtyFlag) })
  else (Status.PAGENOTPINNED, f0)

/-- Modelled from the spec: `BufMgr::allocPage` allocates a fresh, zero-initialised
page at the end of the file and pins it; it fails when the volume grants no more
pages. -/
def allocPage (f : File) : Status × Int × File :=
  let f0 := { f with log := CacheCall.allocPage :: f.log }
  match f.allocLeft with
  | 0 => (Status.UNIXERR, f.nextNo, f0)
  | n + 1 =>
      (Status.OK, f.nextNo,
        { f0 with pages := setAt f.pages f.nextNo Page.zero,
                  valid := setAt f.valid f.nextNo true,
                  pinCnt := setAt f.pinCnt f.nextNo 1,
                  dirty := setAt f.dirty f.nextNo false,
                  firstPageNo := if f.firstPageNo = -1 then f.nextNo else f.firstPageNo,
                  nextNo := f.nextNo + 1,
                  allocLeft := n })

/-- Modelled from the spec: `BufMgr::flushFile` writes the dirty pages back. -/
def flushFile (f : File) : Status × File :=
  (Status.OK, { f.writeBack with log := CacheCall.flushFile :: f.log })

end BufMgr

/-! ## The heap-file handle -/

/-- Data members of `HeapFile` and of its subclass `HeapFileScan`.  `curPage` is
the pointer to the pinned data page; `filter` holds the bytes the filter pointer
refers to, `none` being the null pointer. -/
structure HeapFile where
  headerPageNo : Int
  hdrDirtyFlag : Bool
  curPage : Option Int
  curPageNo : Int
  curDirtyFlag : Bool
  curRec : RID
  offset : Int
  length : Int
  type : Datatype
  filter : Option (List Nat)
  op : Operator
  markedPageNo : Int
  markedRec : RID
  deriving DecidableEq, Repr, Inhabited

/-- A handle together with the file it has open. -/
structure State where
  h : HeapFile
  f : File

/-- `HeapFile::getRecCnt`. -/
def HeapFile.getRecCnt (s : State) : Int := s.f.hdr.recCnt

/-- `HeapFile::getRecord(rid, rec)`: fetch an arbitrary record, moving the cursor
to its page. -/
def HeapFile.getRecord (s : State) (rid : RID) : Status × Option Record × State :=
  match s.h.curPage with
  | none =>
      let r := BufMgr.readPage s.f rid.pageNo
      if r.1 ≠ Status.OK then (r.1, none, { s with f := r.2 })
      else
        let h1 := { s.h with curPage := some rid.pageNo, curPageNo := rid.pageNo,
                             curDirtyFlag := false, curRec := rid }
        match (r.2.pages rid.pageNo).getRecord rid with
        | .ok rec => (Status.OK, some rec, { h := h1, f := r.2 })
        | .error st => (st, none, { h := h1, f := r.2 })
  | some cp =>
      if s.h.curPageNo = rid.pageNo then
        match (s.f.pages cp).getRecord rid with
        | .error st => (st, none, s)
        | .ok rec => (Status.OK, some rec, { s with h := { s.h with curRec := rid } })
      else
        let u := BufMgr.unPinPage s.f s.h.curPageNo s.h.curDirtyFlag
        if u.1 ≠ Status.OK then (u.1, none, { s with f := u.2 })
        else
          let h1 := { s.h with curPage := none, curPageNo := rid.pageNo,
                               curDirtyFlag := false, curRec := rid }
          let r := BufMgr.readPage u.2 rid.pageNo
          if r.1 ≠ Status.OK then (r.1, none, { h := h1, f := r.2 })
          else
            let h2 := { h1 with curPage := some rid.pageNo }
            match (r.2.pages rid.pageNo).getRecord rid with
            | .error st => (st, none, { h := h2, f := r.2 })
            | .ok rec => (Status.OK, some rec, { h := h2, f := r.2 })

/-- The `else` branch of `InsertFileScan::insertRecord`, taken when the insert on
the current page (pointer `cp`) failed: allocate a page, link it behind the current
page, make it current and insert there. -/
def InsertFileScan.insertOverflow (PAGESIZE DPFIXED : Nat) (s : State) (cp : Int)
    (rec : Record) : Status × Option RID × State :=
  let a := BufMgr.allocPage s.f
  if a.1 ≠ Status.OK then (a.1, none, { s with f := a.2.2 })
  else
    let newPageNo := a.2.1
    -- newPage->init(newPageNo)
    let f1 := { a.2.2 with pages := setAt a.2.2.pages newPageNo
                             (Page.init PAGESIZE DPFIXED newPageNo) }
    -- status = curPage->setNextPage(newPageNo)
    let n := (f1.pages cp).setNextPage newPageNo
    let f2 := { f1 with pages := setAt f1.pages cp n.2 }
    if n.1 ≠ Status.OK then (n.1, none, { s with f := f2 })
    else
      -- curDirtyFlag = true; unpinstatus = bufMgr->unPinPage(...)
      let f3 := (BufMgr.unPinPage f2 s.h.curPageNo true).2
      let h3 := { s.h with curPage := some newPageNo, curPageNo := newPageNo,
                           curDirtyFlag := false }
      match (f3.pages newPageNo).insertRecord rec with
      | .ok (rid, p) =>
          (Status.OK, some rid,
            { h := { h3 with curDirtyFlag := true },
              f := { f3 with pages := setAt f3.pages newPageNo p,
                             hdr := { f3.hdr with recCnt := wrap32 (f3.hdr.recCnt + 1) } } })
      | .error st =>
          (st, none,
            { h := { h3 with curPage := none, curPageNo := -1 },
              f := (BufMgr.unPinPage f3 h3.curPageNo h3.curDirtyFlag).2 })

/-- The block `if (curPage != NULL)` of `InsertFileScan::insertRecord` for the
current page behind `cp`. -/
def InsertFileScan.insertCurrent (PAGESIZE DPFIXED : Nat) (s : State) (cp : Int)
    (rec : Record) : Status × Option RID × State :=
  match (s.f.pages cp).insertRecord rec with
  | .ok (rid, p) =>
      (Status.OK, some rid,
        { h := { s.h with hdrDirtyFlag := true, curDirtyFlag := true },
          f := { s.f with pages := setAt s.f.pages cp p,
                          hdr := { s.f.hdr with recCnt := wrap32 (s.f.hdr.recCnt + 1) } } })
  | .error _ => InsertFileScan.insertOverflow PAGESIZE DPFIXED s cp rec

/-- `InsertFileScan::insertRecord`: insert on the current page, or on a freshly
allocated page when the current page has no room. -/
def InsertFileScan.insertRecord (PAGESIZE DPFIXED : Nat) (s : State) (rec : Record) :
    Status × Option RID × State :=
  if toUnsigned rec.length > PAGESIZE - DPFIXED then
    (Status.INVALIDRECLEN, none, s)
  else
    match s.h.curPage with
    | none =>
        -- no current page: read the page `headerPage->lastPage`
        let h0 := { s.h with curPageNo := s.f.hdr.lastPage }
        let r := BufMgr.readPage s.f h0.curPageNo
        if r.1 ≠ Status.OK then (r.1, none, { h := h0, f := r.2 })
        else
          InsertFileScan.insertCurrent PAGESIZE DPFIXED
            { h := { h0 with curPage := some h0.curPageNo }, f := r.2 } h0.curPageNo rec
    | some cp => InsertFileScan.insertCurrent PAGESIZE DPFIXED s cp rec

/-! ## Sequential scan -/

/-- `HeapFileScan::startScan`: validate and install the filter. -/
def HeapFileScan.startScan (s : State) (offset_ length_ : Int) (type_ : Datatype)
    (filter_ : Option (List Nat)) (op_ : Operator) : Status × State :=
  match filter_ with
  | none => (Status.OK, { s with h := { s.h with filter := none } })
  | some lit =>
      if (offset_ < 0 ∨ length_ < 1) ∨
          (type_ ≠ Datatype.STRING ∧ type_ ≠ Datatype.INTEGER ∧ type_ ≠ Datatype.FLOAT) ∨
          ((type_ = Datatype.INTEGER ∧ length_ ≠ sizeofInt) ∨
            (type_ = Datatype.FLOAT ∧ length_ ≠ sizeofFloat)) ∨
          (op_ ≠ Operator.LT ∧ op_ ≠ Operator.LTE ∧ op_ ≠ Operator.EQ ∧ op_ ≠ Operator.GTE ∧
            op_ ≠ Operator.GT ∧ op_ ≠ Operator.NE) then
        (Status.BADSCANPARM, s)
      else
        (Status.OK, { s with h := { s.h with offset := offset_, length := length_, type := type_,
                                             filter := some lit, op := op_ } })

/-- `HeapFileScan::endScan`: unpin the current page, if any. -/
def HeapFileScan.endScan (s : State) : Status × State :=
  match s.h.curPage with
  | some _ =>
      let r := BufMgr.unPinPage s.f s.h.curPageNo s.h.curDirtyFlag
      (r.1, { h := { s.h with curPage := none, curPageNo := 0, curDirtyFlag := false }, f := r.2 })
  | none => (Status.OK, s)

/-- `HeapFileScan::markScan`: snapshot of the scan position. -/
def HeapFileScan.markScan (s : State) : Status × State :=
  (Status.OK, { s with h := { s.h with markedPageNo := s.h.curPageNo, markedRec := s.h.curRec } })

/-- `HeapFileScan::resetScan`: go back to the snapshot of `markScan`. -/
def HeapFileScan.resetScan (s : State) : Status × State :=
  if s.h.markedPageNo ≠ s.h.curPageNo then
    let u : Status × File :=
      match s.h.curPage with
      | some _ => BufMgr.unPinPage s.f s.h.curPageNo s.h.curDirtyFlag
      | none => (Status.OK, s.f)
    if u.1 ≠ Status.OK then (u.1, { s with f := u.2 })
    else
      let h1 := { s.h with curPageNo := s.h.markedPageNo, curRec := s.h.markedRec }
      let r := BufMgr.readPage u.2 h1.curPageNo
      if r.1 ≠ Status.OK then (r.1, { h := h1, f := r.2 })
      else (Status.OK, { h := { h1 with curPage := some h1.curPageNo, curDirtyFlag := false },
                         f := r.2 })
  else (Status.OK, { s with h := { s.h with curRec := s.h.markedRec } })

/-- The value of `float diff` as far as the comparisons with `0.0` can tell:
negative, zero, positive, or not a number. -/
inductive Diff where
  | neg
  | zero
  | pos
  | nan
  deriving DecidableEq, Repr, Inhabited

/-- Conversion of an `int` result to `float diff`: the sign is kept. -/
def Diff.ofInt (n : Int) : Diff :=
  if n < 0 then Diff.neg else if n = 0 then Diff.zero else Diff.pos

/-- The `n` bytes at `p + off`; a byte beyond the buffer reads as `0`. -/
def bytesAt (p : List Nat) (off n : Nat) : List Nat :=
  (List.range n).map (fun i => p.getD (off + i) 0 % 256)

/-- The `int` whose object representation are the first four bytes of `bs`
(little-endian, two's complement). -/
def int32OfBytes (bs : List Nat) : Int :=
  wrap32 ((bs.getD 0 0 + 256 * bs.getD 1 0 + 65536 * bs.getD 2 0 + 16777216 * bs.getD 3 0 : Nat) : Int)

/-- The library function `strncmp`: compare at most `n` characters as unsigned
bytes, stopping after a terminating zero byte. -/
def strncmp : List Nat → List Nat → Nat → Int
  | _, _, 0 => 0
  | a, b, n + 1 =>
      let c1 := a.headD 0 % 256
      let c2 := b.headD 0 % 256
      if c1 ≠ c2 then (c1 : Int) - (c2 : Int)
      else if c1 = 0 then 0
      else strncmp a.tail b.tail n

/-- Sign of the `float` difference `x - y` of two IEEE-754 single-precision
numbers given by their bit patterns. -/
def floatDiff (x y : Nat) : Diff :=
  let isNan (b : Nat) : Bool := (b / 8388608 % 256 == 255) && (b % 8388608 != 0)
  let isInf (b : Nat) : Bool := (b / 8388608 % 256 == 255) && (b % 8388608 == 0)
  let key (b : Nat) : Int :=
    if b / 2147483648 % 2 = 1 then -((b % 2147483648 : Nat) : Int) else ((b % 2147483648 : Nat) : Int)
  if isNan x || isNan y then Diff.nan
  else if isInf x && isInf y && (x / 2147483648 % 2 == y / 2147483648 % 2) then Diff.nan
  else Diff.ofInt (key x - key y)

/-- The unsigned 32-bit word whose bytes are the first four bytes of `bs`. -/
def word32OfBytes (bs : List Nat) : Nat :=
  bs.getD 0 0 + 256 * bs.getD 1 0 + 65536 * bs.getD 2 0 + 16777216 * bs.getD 3 0

/-- `HeapFileScan::matchRec`: does the record satisfy the installed filter? -/
def HeapFileScan.matchRec (h : HeapFile) (rec : Record) : Bool :=
  match h.filter with
  | none => true
  | some lit =>
      if wrap32 (wrap32 (h.offset + h.length) - 1) ≥ rec.length then false
      else
        let attr := bytesAt rec.data h.offset.toNat h.length.toNat
        let fltr := bytesAt lit 0 h.length.toNat
        let diff : Diff :=
          match h.type with
          | Datatype.INTEGER => Diff.ofInt (wrap32 (int32OfBytes attr - int32OfBytes fltr))
          | Datatype.FLOAT => floatDiff (word32OfBytes attr) (word32OfBytes fltr)
          | Datatype.STRING =>
              Diff.ofInt (strncmp (rec.data.drop h.offset.toNat) lit h.length.toNat)
          | Datatype.other _ => Diff.zero
        match h.op with
        | Operator.LT => diff == Diff.neg
        | Operator.LTE => diff == Diff.neg || diff == Diff.zero
        | Operator.EQ => diff == Diff.zero
        | Operator.GTE => diff == Diff.pos || diff == Diff.zero
        | Operator.GT => diff == Diff.pos
        | Operator.NE => diff != Diff.zero
        | Operator.other _ => false

/-- `HeapFileScan::getRecord(rec)`: the record under the cursor, read through the
page pointer `cp`. -/
def HeapFileScan.getRecord (s : State) (cp : Int) : Except Status Record :=
  (s.f.pages cp).getRecord s.h.curRec

/-- Indeterminate initial values of the locals `tmpRid` and `rec` of `scanNext`. -/
structure Locals where
  tmpRid : RID
  record : Record
  deriving DecidableEq, Repr, Inhabited

/-- The statement pair `getRecord(rec); matchRec(rec)` of `scanNext`: the status of
`getRecord` is dropped, so `rec` keeps its old value when the lookup fails. -/
def HeapFileScan.fetch (s : State) (cp : Int) (rec : Record) : Record :=
  match HeapFileScan.getRecord s cp with
  | .ok r => r
  | .error _ => rec

/-- The inner loop of `scanNext` (`while (curPage->nextRecord(tmpRid, nextRid) == OK)`)
on the page behind `cp`.  Result: the matching RID if the loop returned one, the
state, and the local `rec`. -/
def HeapFileScan.scanPage (cp : Int) : Nat → State → RID → Record →
    Option (Option RID × State × Record)
  | 0, _, _, _ => none
  | fuel + 1, s, tmpRid, rec =>
      match (s.f.pages cp).nextRecord tmpRid with
      | .ok nextRid =>
          let s1 : State := { s with h := { s.h with curRec := nextRid } }
          let rec1 := HeapFileScan.fetch s1 cp rec
          if HeapFileScan.matchRec s1.h rec1 then some (some nextRid, s1, rec1)
          else HeapFileScan.scanPage cp fuel s1 nextRid rec1
      | .error _ => some (none, s, rec)

/-- The head of the body of the outer loop of `scanNext`: on the first pass
continue after the cursor record, on a later pass look at the first record of the
page just read.  `.error` is a `return` out of `scanNext`, `.ok` carries the state
and the locals `tmpRid` and `rec` into the inner loop. -/
def HeapFileScan.scanEnter (firstLoop : Bool) (s : State) (cp : Int) (rec : Record) :
    Except (Status × Option RID × State) (State × RID × Record) :=
  if firstLoop then .ok (s, s.h.curRec, rec)
  else
    match (s.f.pages cp).firstRecord with
    | .error st => .error (st, none, s)
    | .ok tmpRid =>
        let s1 : State := { s with h := { s.h with curRec := tmpRid } }
        let rec1 := HeapFileScan.fetch s1 cp rec
        if HeapFileScan.matchRec s1.h rec1 then .error (Status.OK, some tmpRid, s1)
        else .ok (s1, tmpRid, rec1)

/-- The outer loop of `scanNext` (`while (status == OK)`), entered with a non-null
`curPage`; a null `curPage` would be dereferenced and gives no result. -/
def HeapFileScan.scanLoop : Nat → Bool → State → Record → Option (Status × Option RID × State)
  | 0, _, _, _ => none
  | fuel + 1, firstLoop, s, rec =>
      match s.h.curPage with
      | none => none
      | some cp =>
          match HeapFileScan.scanEnter firstLoop s cp rec with
          | .error r => some r
          | .ok (s1, tmpRid, rec1) =>
              match HeapFileScan.scanPage cp ((s1.f.pages cp).slots.length + 1) s1 tmpRid rec1 with
              | none => none
              | some (some rid, s2, _) => some (Status.OK, some rid, s2)
              | some (none, s2, rec2) =>
                  -- end of the page: get the next page number
                  let n := (s2.f.pages cp).getNextPage
                  if n.1 ≠ Status.OK then some (n.1, none, s2)
                  else
                    let u := BufMgr.unPinPage s2.f s2.h.curPageNo s2.h.curDirtyFlag
                    if u.1 ≠ Status.OK then some (u.1, none, { s2 with f := u.2 })
                    else if n.2 = -1 then some (Status.NORECORDS, none, { s2 with f := u.2 })
                    else
                      let h3 := { s2.h with curPageNo := n.2 }
                      let r := BufMgr.readPage u.2 h3.curPageNo
                      if r.1 ≠ Status.OK then some (r.1, none, { h := h3, f := r.2 })
                      else
                        HeapFileScan.scanLoop fuel false
                          { h := { h3 with curPage := some h3.curPageNo }, f := r.2 } rec2

/-- `HeapFileScan::scanNext`: the next record that satisfies the filter. -/
def HeapFileScan.scanNext (fuel : Nat) (l : Locals) (s : State) :
    Option (Status × Option RID × State) :=
  if s.h.curPageNo < 0 then some (Status.FILEEOF, none, s)
  else
    match s.h.curPage with
    | none =>
        let h0 := { s.h with curPageNo := s.f.hdr.firstPage }
        if h0.curPageNo < 0 then some (Status.FILEEOF, none, { s with h := h0 })
        else
          let r := BufMgr.readPage s.f h0.curPageNo
          if r.1 ≠ Status.OK then some (r.1, none, { h := h0, f := r.2 })
          else
            let h1 := { h0 with curPage := some h0.curPageNo, curDirtyFlag := false }
            match (r.2.pages h0.curPageNo).firstRecord with
            | .error _ =>
                -- there are no records
                let u := BufMgr.unPinPage r.2 h1.curPageNo h1.curDirtyFlag
                if u.1 ≠ Status.OK then some (u.1, none, { h := h1, f := u.2 })
                else
                  some (Status.FILEEOF, none,
                    { h := { h1 with curPage := none, curPageNo := -1, curRec := l.tmpRid },
                      f := u.2 })
            | .ok tmpRid =>
                let s2 : State := { h := { h1 with curRec := tmpRid }, f := r.2 }
                let rec1 := HeapFileScan.fetch s2 h0.curPageNo l.record
                if HeapFileScan.matchRec s2.h rec1 then some (Status.OK, some tmpRid, s2)
                else HeapFileScan.scanLoop fuel true s2 rec1
    | some _ => HeapFileScan.scanLoop fuel true s l.record

/-- `HeapFileScan::deleteRecord`: delete the record under the cursor.  `none` is
the dereference of a null `curPage`. -/
def HeapFileScan.deleteRecord (s : State) : Option (Status × State) :=
  match s.h.curPage with
  | none => none
  | some cp =>
      let r : Status × (Int → Page) :=
        match (s.f.pages cp).deleteRecord s.h.curRec with
        | .ok p => (Status.OK, setAt s.f.pages cp p)
        | .error st => (st, s.f.pages)
      some (r.1,
        { h := { s.h with curDirtyFlag := true, hdrDirtyFlag := true },
          f := { s.f with pages := r.2,
                          hdr := { s.f.hdr with
                            recCnt := wrap32 (s.f.hdr.recCnt - 1) } } })

/-- `HeapFileScan::markDirty`. -/
def HeapFileScan.markDirty (s : State) : Status × State :=
  (Status.OK, { s with h := { s.h with curDirtyFlag := true } })

/-! ## Creating, opening and closing a heap file -/

/-- Modelled from the spec: the storage volume (class `DB`, not part of
`heapfile.C`): the files by name.  A file created on the volume starts without
pages; `firstNo` is the page number its first allocation hands out and `quota` the
number of pages it may allocate. -/
structure DB where
  files : String → Option File
  firstNo : Int
  quota : Nat

namespace DB

/-- Replace the file stored under `name`. -/
def put (db : DB) (name : String) (f : File) : DB :=
  { db with files := fun n => if n = name then some f else db.files n }

/-- Modelled from the spec: `DB::openFile` fails if the file is absent. -/
def openFile (db : DB) (name : String) : Status × DB :=
  match db.files name with
  | some f => (Status.OK, db.put name { f with openCnt := f.openCnt + 1 })
  | none => (Status.UNIXERR, db)

/-- Modelled from the spec: `DB::createFile` fails if the file exists. -/
def createFile (db : DB) (name : String) : Status × DB :=
  match db.files name with
  | some _ => (Status.FILEEXISTS, db)
  | none => (Status.OK, db.put name (File.empty db.firstNo db.quota))

/-- Modelled from the spec: `DB::closeFile`, called once per open. -/
def closeFile (db : DB) (name : String) : Status × DB :=
  match db.files name with
  | some f =>
      if 0 < f.openCnt then (Status.OK, db.put name (File.close f).2)
      else (Status.UNIXERR, db)
  | none => (Status.UNIXERR, db)

/-- Modelled from the spec: `DB::destroyFile` removes a file that exists and is
not open. -/
def destroyFile (db : DB) (name : String) : Status × DB :=
  match db.files name with
  | some f =>
      if f.openCnt = 0 then
        (Status.OK, { db with files := fun n => if n = name then none else db.files n })
      else (Status.FILEOPEN, db)
  | none => (Status.UNIXERR, db)

end DB

/-- `createHeapFile`: create a file with an empty header page and one empty data
page.  The pointer `file` is the name under which the volume holds the file. -/
def createHeapFile (PAGESIZE DPFIXED : Nat) (db : DB) (fileName : String) : Status × DB :=
  let o := db.openFile fileName
  if o.1 ≠ Status.OK then
    let c := o.2.createFile fileName
    if c.1 ≠ Status.OK then (c.1, c.2)
    else
      -- the status of this second `openFile` is not stored, so the test that
      -- follows it sees the `OK` of `createFile` and never returns
      let db3 := (c.2.openFile fileName).2
      match db3.files fileName with
      | none => (Status.UNIXERR, db3)
      | some f0 =>
          let a1 := BufMgr.allocPage f0
          if a1.1 ≠ Status.OK then (a1.1, db3.put fileName a1.2.2)
          else
            let hdrPageNo := a1.2.1
            let a2 := BufMgr.allocPage a1.2.2
            if a2.1 ≠ Status.OK then (a2.1, db3.put fileName a2.2.2)
            else
              let newPageNo := a2.2.1
              let f3 := { a2.2.2 with pages := setAt a2.2.2.pages newPageNo
                                        (Page.init PAGESIZE DPFIXED newPageNo) }
              let f4 := { f3 with hdr := { fileName := fileName, firstPage := newPageNo,
                                           lastPage := newPageNo, pageCnt := 1, recCnt := 0 } }
              let f5 := (BufMgr.unPinPage f4 newPageNo true).2
              let f6 := (BufMgr.unPinPage f5 hdrPageNo true).2
              let f7 := (BufMgr.flushFile f6).2
              (Status.OK, ((db3.put fileName f7).closeFile fileName).2)
  else (Status.FILEEXISTS, o.2)

/-- `destroyHeapFile`. -/
def destroyHeapFile (db : DB) (fileName : String) : Status × DB :=
  db.destroyFile fileName

/-- The constructor `HeapFile::HeapFile` after `db.openFile` has returned `OK` with
the file `f`: pin the header page and the first data page.  `raw` holds the
indeterminate values of the members before construction. -/
def HeapFile.openBody (raw : HeapFile) (f : File) : Status × State :=
  -- filePtr->getFirstPage(firstPageNo)
  let firstPageNo := f.firstPageNo
  let r1 := BufMgr.readPage f firstPageNo
  if r1.1 ≠ Status.OK then (r1.1, { h := raw, f := r1.2 })
  else
    let h1 := { raw with headerPageNo := firstPageNo, hdrDirtyFlag := false,
                         curPageNo := r1.2.hdr.firstPage }
    let r2 := BufMgr.readPage r1.2 h1.curPageNo
    if r2.1 ≠ Status.OK then (r2.1, { h := h1, f := r2.2 })
    else
      (Status.OK, { h := { h1 with curPage := some h1.curPageNo, curDirtyFlag := false,
                                   curRec := NULLRID },
                    f := r2.2 })

/-- The constructor `HeapFile::HeapFile`: open the file on the volume and pin its
header page and first data page.  No state is returned when the file cannot be
opened. -/
def HeapFile.ctor (raw : HeapFile) (db : DB) (fileName : String) : Status × Option State :=
  let o := db.openFile fileName
  if o.1 ≠ Status.OK then (o.1, none)
  else
    match o.2.files fileName with
    | some f => ((HeapFile.openBody raw f).1, some (HeapFile.openBody raw f).2)
    | none => (Status.UNIXERR, none)

/-- The constructor `HeapFileScan::HeapFileScan`: the base constructor, then no
filter. -/
def HeapFileScan.ctor (raw : HeapFile) (db : DB) (fileName : String) : Status × Option State :=
  match HeapFile.ctor raw db fileName with
  | (st, some s) => (st, some { s with h := { s.h with filter := none } })
  | (st, none) => (st, none)

/-- The constructor `InsertFileScan::InsertFileScan`: the base constructor only. -/
def InsertFileScan.ctor (raw : HeapFile) (db : DB) (fileName : String) : Status × Option State :=
  HeapFile.ctor raw db fileName

/-- The destructor `HeapFile::~HeapFile`: unpin the data page and the header page
and close the file; the result is the file as the handle leaves it. -/
def HeapFile.dtor (s : State) : File :=
  let s1 : State :=
    match s.h.curPage with
    | some _ =>
        { h := { s.h with curPage := none, curPageNo := 0, curDirtyFlag := false },
          f := (BufMgr.unPinPage s.f s.h.curPageNo s.h.curDirtyFlag).2 }
    | none => s
  let f2 := (BufMgr.unPinPage s1.f s1.h.headerPageNo s1.h.hdrDirtyFlag).2
  -- status = db.closeFile(filePtr)
  (File.close f2).2

/-- The destructor `HeapFileScan::~HeapFileScan`: `endScan`, then the base
destructor. -/
def HeapFileScan.dtor (s : State) : File :=
  HeapFile.dtor (HeapFileScan.endScan s).2

/-- The destructor `InsertFileScan::~InsertFileScan`: unpin the current page as
dirty, then the base destructor. -/
def InsertFileScan.dtor (s : State) : File :=
  let s1 : State :=
    match s.h.curPage with
    | some _ =>
        { h := { s.h with curPage := none, curPageNo := 0 },
          f := (BufMgr.unPinPage s.f s.h.curPageNo true).2 }
    | none => s
  HeapFile.dtor s1

/-! ## Invariants -/

/-- Well-formedness of a heap file as far as inserts and lookups need it: the
header page exists and is not a data page of the chain ends, every existing page
number lies below the next number to allocate, and every data page carries its own
page number (as `Page::init` leaves it). -/
structure File.WF (f : File) : Prop where
  hdrNo : f.firstPageNo ≠ -1
  hdrValid : f.valid f.firstPageNo = true
  fresh : ∀ p, f.valid p = true → p < f.nextNo
  selfNo : ∀ p, f.valid p = true → p ≠ f.firstPageNo → (f.pages p).curPage = p
  firstData : f.hdr.firstPage ≠ f.firstPageNo
  lastData : f.hdr.lastPage ≠ f.firstPageNo

/-- The cursor of a handle is coherent: a non-null `curPage` points at the existing
data page `curPageNo`. -/
def State.CursorOk (s : State) : Prop :=
  ∀ cp, s.h.curPage = some cp → s.h.curPageNo = cp ∧ s.f.valid cp = true ∧ cp ≠ s.f.firstPageNo

/-- States of an `InsertFileScan` handle reachable after a successful open of a
well-formed file, by calls of `insertRecord` and of `getRecord` on RIDs of data
pages. -/
inductive InsertReachable (PAGESIZE DPFIXED : Nat) : State → Prop where
  | opened (raw : HeapFile) (f : File) (s : State) :
      f.WF → HeapFile.openBody raw f = (Status.OK, s) → InsertReachable PAGESIZE DPFIXED s
  | insertRecord (s : State) (rec : Record) :
      InsertReachable PAGESIZE DPFIXED s →
      InsertReachable PAGESIZE DPFIXED (InsertFileScan.insertRecord PAGESIZE DPFIXED s rec).2.2
  | getRecord (s : State) (rid : RID) :
      InsertReachable PAGESIZE DPFIXED s → rid.pageNo ≠ s.f.firstPageNo →
      InsertReachable PAGESIZE DPFIXED (HeapFile.getRecord s rid).2.2

/-- The file `g` differs from `f` at most in pin counts, dirty marks, the budget
bookkeeping of the cache and the call log: pages, page numbers and header agree. -/
def File.SameContent (f g : File) : Prop :=
  g.pages = f.pages ∧ g.valid = f.valid ∧ g.hdr = f.hdr ∧ g.firstPageNo = f.firstPageNo ∧
    g.nextNo = f.nextNo

/-- Check that `chain` lists the pages reached from page number `p` by next-page
links up to the link `-1`, every one of them an existing page that carries its own
number. -/
def File.isChain (f : File) : Int → List Int → Bool
  | p, [] => p == -1
  | p, q :: rest =>
      p == q && (q != -1 && (f.valid q && ((f.pages q).curPage == q &&
        File.isChain f (f.pages q).nextPage rest)))

/-- What the scan uses of a page chain: every page of `chain` exists and carries its
own number, and its next-page link is `-1` or the page that follows it in `chain`. -/
def ChainFacts (chain : List Int) (f : File) : Prop :=
  ∀ q ∈ chain, f.valid q = true ∧ (f.pages q).curPage = q ∧
    ((f.pages q).nextPage = -1 ∨
      ((f.pages q).nextPage ∈ chain ∧
        chain.indexOf (f.pages q).nextPage = chain.indexOf q + 1))

/-- Scan order on RIDs: `a` lies on an earlier page of the chain than `b`, or on the
same page in a lower slot. -/
def RID.before (chain : List Int) (a b : RID) : Prop :=
  chain.indexOf a.pageNo < chain.indexOf b.pageNo ∨
    (a.pageNo = b.pageNo ∧ a.slotNo < b.slotNo)

instance (chain : List Int) (a b : RID) : Decidable (RID.before chain a b) := by
  unfold RID.before; infer_instance

/-- A scan state on a well-formed heap file: `chain` is the finite page chain from
`header.firstPage` to the page whose link is `-1`, without repetition, and the
cursor either holds no page or holds the page `curPageNo` of the chain. -/
structure ScanInv (chain : List Int) (s : State) : Prop where
  isChain : s.f.isChain s.f.hdr.firstPage chain = true
  nodup : chain.Nodup
  cursor : s.h.curPage = none ∨ (s.h.curPage = some s.h.curPageNo ∧ s.h.curPageNo ∈ chain)

/-- What one run of the outer loop of `scanNext` from state `s` guarantees about
its status `st`, its out-parameter `ro` and its final state `s'`. -/
structure ScanPost (chain : List Int) (firstLoop : Bool) (s : State) (st : Status)
    (ro : Option RID) (s' : State) : Prop where
  same : s.f.SameContent s'.f
  frame : s'.h = { s.h with curPage := s'.h.curPage, curPageNo := s'.h.curPageNo,
                            curRec := s'.h.curRec }
  cur : s'.h.curPage = some s'.h.curPageNo
  mem : s'.h.curPageNo ∈ chain
  adv : chain.indexOf s.h.curPageNo ≤ chain.indexOf s'.h.curPageNo
  mono : s'.h.curRec = s.h.curRec ∨
    (s'.h.curRec.pageNo ∈ chain ∧
      chain.indexOf s.h.curPageNo ≤ chain.indexOf s'.h.curRec.pageNo ∧
      chain.indexOf s'.h.curRec.pageNo ≤ chain.indexOf s'.h.curPageNo ∧
      (firstLoop = true → s'.h.curRec.pageNo = s.h.curPageNo →
        s.h.curRec.slotNo < s'.h.curRec.slotNo))
  ok : st = Status.OK →
    ro = some s'.h.curRec ∧ s'.h.curRec.pageNo = s'.h.curPageNo ∧
    (∃ recd, (s'.f.pages s'.h.curPageNo).getRecord s'.h.curRec = .ok recd ∧
      HeapFileScan.matchRec s'.h recd = true) ∧
    (firstLoop = true → s'.h.curPageNo = s.h.curPageNo →
      s.h.curRec.slotNo < s'.h.curRec.slotNo) ∧
    ((0 < s.f.pinCnt s.h.curPageNo ∨ s'.h.curPageNo ≠ s.h.curPageNo) →
      0 < s'.f.pinCnt s'.h.curPageNo)
  err : st ≠ Status.OK → ro = none

/-- Consecutive calls of `scanNext`, one per element of the list (fuel and initial
locals of the call); the statuses and RIDs are collected in call order. -/
def HeapFileScan.scanCalls : List (Nat × Locals) → State →
    Option (List (Status × Option RID) × State)
  | [], s => some ([], s)
  | c :: rest, s =>
      match HeapFileScan.scanNext c.1 c.2 s with
      | none => none
      | some r =>
          match HeapFileScan.scanCalls rest r.2.2 with
          | none => none
          | some out => some ((r.1, r.2.1) :: out.1, out.2)

/-- The cursor holds the page `curPageNo` of the chain, and the cursor record lies
on that page or on an earlier page of the chain. -/
def Trail (chain : List Int) (s : State) : Prop :=
  s.h.curPage = some s.h.curPageNo ∧ s.h.curPageNo ∈ chain ∧ s.h.curRec.pageNo ∈ chain ∧
    chain.indexOf s.h.curRec.pageNo ≤ chain.indexOf s.h.curPageNo

/-- What a call of `scanNext` from state `s` guarantees about its status `st`, its
out-parameter `ro` and its final state `s'`. -/
structure NextPost (chain : List Int) (s : State) (st : Status) (ro : Option RID)
    (s' : State) : Prop where
  inv : ScanInv chain s'
  same : s.f.SameContent s'.f
  ok : st = Status.OK →
    ro = some s'.h.curRec ∧ Trail chain s' ∧ s'.h.curRec.pageNo = s'.h.curPageNo ∧
    (∃ recd, (s'.f.pages s'.h.curPageNo).getRecord s'.h.curRec = .ok recd ∧
      HeapFileScan.matchRec s'.h recd = true) ∧
    ((∀ q, s.h.curPage = some q → 0 < s.f.pinCnt q) → 0 < s'.f.pinCnt s'.h.curPageNo)
  err : st ≠ Status.OK → ro = none
  trail : Trail chain s →
    Trail chain s' ∧
    (s.h.curRec = s'.h.curRec ∨ RID.before chain s.h.curRec s'.h.curRec) ∧
    (st = Status.OK → RID.before chain s.h.curRec s'.h.curRec)

/-! ## Two handles on one file -/

/-- An `InsertFileScan` handle and a `HeapFileScan` handle that have the same file
open; both see the file through the page cache. -/
structure Session where
  ins : HeapFile
  scan : HeapFile
  f : File

/-- A call on one of the two handles of a session. -/
inductive Call where
  | insertRecord (rec : Record)
  | insGetRecord (rid : RID)
  | scanGetRecord (rid : RID)
  | startScan (offset length : Int) (type : Datatype) (filter : Option (List Nat))
      (op : Operator)
  | endScan
  | markScan
  | resetScan
  | scanNext (fuel : Nat) (l : Locals)
  | deleteRecord
  | markDirty

/-- Is the call an `insertRecord`? -/
def Call.isInsert : Call → Bool
  | .insertRecord _ => true
  | _ => false

/-- Is the call a `deleteRecord`? -/
def Call.isDelete : Call → Bool
  | .deleteRecord => true
  | _ => false

/-- The session after the insert handle moved to state `r`. -/
def Session.withIns (x : Session) (r : State) : Session := { x with ins := r.h, f := r.f }

/-- The session after the scan handle moved to state `r`. -/
def Session.withScan (x : Session) (r : State) : Session := { x with scan := r.h, f := r.f }

/-- Perform one call; `none` when the call does not return. -/
def Session.call (PAGESIZE DPFIXED : Nat) (x : Session) : Call → Option (Status × Session)
  | .insertRecord rec =>
      let r := InsertFileScan.insertRecord PAGESIZE DPFIXED { h := x.ins, f := x.f } rec
      some (r.1, x.withIns r.2.2)
  | .insGetRecord rid =>
      let r := HeapFile.getRecord { h := x.ins, f := x.f } rid
      some (r.1, x.withIns r.2.2)
  | .scanGetRecord rid =>
      let r := HeapFile.getRecord { h := x.scan, f := x.f } rid
      some (r.1, x.withScan r.2.2)
  | .startScan offset length type filter op =>
      let r := HeapFileScan.startScan { h := x.scan, f := x.f } offset length type filter op
      some (r.1, x.withScan r.2)
  | .endScan =>
      let r := HeapFileScan.endScan { h := x.scan, f := x.f }
      some (r.1, x.withScan r.2)
  | .markScan =>
      let r := HeapFileScan.markScan { h := x.scan, f := x.f }
      some (r.1, x.withScan r.2)
  | .resetScan =>
      let r := HeapFileScan.resetScan { h := x.scan, f := x.f }
      some (r.1, x.withScan r.2)
  | .scanNext fuel l =>
      match HeapFileScan.scanNext fuel l { h := x.scan, f := x.f } with
      | some r => some (r.1, x.withScan r.2.2)
      | none => none
  | .deleteRecord =>
      match HeapFileScan.deleteRecord { h := x.scan, f := x.f } with
      | some r => some (r.1, x.withScan r.2)
      | none => none
  | .markDirty =>
      let r := HeapFileScan.markDirty { h := x.scan, f := x.f }
      some (r.1, x.withScan r.2)

/-- Perform the calls in order and collect their statuses; `none` when one of them
does not return. -/
def Session.run (PAGESIZE DPFIXED : Nat) : Session → List Call → Option (List Status × Session)
  | x, [] => some ([], x)
  | x, c :: rest =>
      match Session.call PAGESIZE DPFIXED x c with
      | none => none
      | some r =>
          match Session.run PAGESIZE DPFIXED r.2 rest with
          | none => none
          | some out => some (r.1 :: out.1, out.2)

/-- Open an `InsertFileScan` and then a `HeapFileScan` on the file `f` (both
`db.openFile` calls succeeding). -/
def Session.start (rawIns rawScan : HeapFile) (f : File) : Session :=
  let s1 := (HeapFile.openBody rawIns { f with openCnt := f.openCnt + 1 }).2
  let s2 := (HeapFile.openBody rawScan { s1.f with openCnt := s1.f.openCnt + 1 }).2
  { ins := s1.h, scan := { s2.h with filter := none }, f := s2.f }

/-! ## Scan completeness: what the scan should return -/

/-- The RIDs that repeated `scanNext` calls return with `OK`, up to the first call
that returns another status (at most `n` calls, each with fuel `fuel`). -/
def HeapFileScan.scanAll (fuel : Nat) (l : Locals) : Nat → State → List RID
  | 0, _ => []
  | n + 1, s =>
      match HeapFileScan.scanNext fuel l s with
      | some (Status.OK, some r, s1) => r :: HeapFileScan.scanAll fuel l n s1
      | _ => []

/-- The RIDs of the live records of page `p` that satisfy the filter of `h`, in
ascending slot order. -/
def Page.matching (h : HeapFile) (p : Page) : List RID :=
  (List.range p.slots.length).filterMap (fun i =>
    match p.slots.getD i none with
    | some r => if HeapFileScan.matchRec h r then some { pageNo := p.curPage, slotNo := i } else none
    | none => none)

/-- The RIDs of all records of the file that satisfy the filter of `h`, in the
order of the page chain `chain` and in ascending slot order within a page. -/
def File.matching (f : File) (h : HeapFile) (chain : List Int) : List RID :=
  (chain.map (fun q => Page.matching h (f.pages q))).flatten

/-! ## Calls on a scan handle -/

/-- A call on a `HeapFileScan` handle other than `resetScan`, `endScan` and the
inherited `HeapFile::getRecord(rid, rec)`, the three that reposition the cursor. -/
inductive ScanCall where
  | scanNext (fuel : Nat) (l : Locals)
  | startScan (offset length : Int) (type : Datatype) (filter : Option (List Nat))
      (op : Operator)
  | markScan
  | getRecord
  | deleteRecord
  | markDirty

/-- Perform one call on the scan handle; the result carries the RID that a `scanNext`
assigned to its out-parameter.  `none` when the call does not return. -/
def HeapFileScan.call (s : State) : ScanCall → Option (Status × Option RID × State)
  | .scanNext fuel l => HeapFileScan.scanNext fuel l s
  | .startScan offset length type filter op =>
      let r := HeapFileScan.startScan s offset length type filter op
      some (r.1, none, r.2)
  | .markScan =>
      let r := HeapFileScan.markScan s
      some (r.1, none, r.2)
  | .getRecord =>
      match s.h.curPage with
      | none => none
      | some cp =>
          match HeapFileScan.getRecord s cp with
          | .ok _ => some (Status.OK, none, s)
          | .error st => some (st, none, s)
  | .deleteRecord =>
      match HeapFileScan.deleteRecord s with
      | some r => some (r.1, none, r.2)
      | none => none
  | .markDirty =>
      let r := HeapFileScan.markDirty s
      some (r.1, none, r.2)

/-- Is the call a `scanNext`? -/
def ScanCall.isScanNext : ScanCall → Bool
  | .scanNext _ _ => true
  | _ => false

/-- Perform the calls in order; the status and the RID of every `scanNext` among them
are collected in call order.  `none` when one of the calls does not return. -/
def HeapFileScan.run : List ScanCall → State → Option (List (Status × Option RID) × State)
  | [], s => some ([], s)
  | c :: rest, s =>
      match HeapFileScan.call s c with
      | none => none
      | some r =>
          match HeapFileScan.run rest r.2.2 with
          | none => none
          | some out => some ((if c.isScanNext then (r.1, r.2.1) :: out.1 else out.1), out.2)

/-! ## Example states -/

/-- The volume of the examples: no file yet. -/
def exDB : DB := { files := fun _ => none, firstNo := 1, quota := 8 }

/-- Member values before construction, for the examples. -/
def exRaw : HeapFile :=
  { headerPageNo := 0, hdrDirtyFlag := true, curPage := none, curPageNo := 0,
    curDirtyFlag := true, curRec := { pageNo := 0, slotNo := 0 }, offset := 0, length := 0,
    type := Datatype.STRING, filter := none, op := Operator.EQ, markedPageNo := 0,
    markedRec := { pageNo := 0, slotNo := 0 } }

/-- A record of six equal bytes. -/
def exRec (b : Nat) : Record := { data := [b, b, b, b, b, b], length := 6 }

/-- The example volume after `createHeapFile` of the file `"a"` with
`PAGESIZE = 30` and `DPFIXED = 20`, so that a page takes ten bytes of payload. -/
def exCreated : DB := (createHeapFile 30 20 exDB "a").2

/-- The state a constructor call leaves, or an empty state when it opened no file. -/
def stateOf (r : Status × Option State) : State :=
  match r.2 with
  | some s => s
  | none => { h := exRaw, f := File.empty 0 0 }

/-- A handle freshly opened on the file `"a"` of `exCreated`. -/
def exOpen : State := stateOf (HeapFile.ctor exRaw exCreated "a")

/-- The state after one insert of six bytes through `exOpen`. -/
def exOne : State := (InsertFileScan.insertRecord 30 20 exOpen (exRec 1)).2.2

/-- The handle of `exOne` destroyed and a new handle opened on the file. -/
def exReopen : State :=
  stateOf (HeapFile.ctor exRaw (exCreated.put "a" (InsertFileScan.dtor exOne)) "a")

/-- A scan state with an installed integer filter. -/
def exFiltered : State :=
  (HeapFileScan.startScan exOpen 0 4 Datatype.INTEGER (some [5, 0, 0, 0]) Operator.EQ).2

/-- The state after a second insert of six bytes, which goes to a new page. -/
def exTwo : State := (InsertFileScan.insertRecord 30 20 exOne (exRec 2)).2.2

/-- The file `"a"` of `exCreated` as the volume hands it to a handle that opens it. -/
def exFile : File :=
  match (exCreated.openFile "a").2.files "a" with
  | some f => f
  | none => File.empty 0 0

/-- A scan handle opened on the two-page file that `exTwo` leaves behind. -/
def exScan : State :=
  stateOf (HeapFileScan.ctor exRaw (exCreated.put "a" (InsertFileScan.dtor exTwo)) "a")

/-- Initial values of the locals of `scanNext`, for the examples. -/
def exLocals : Locals :=
  { tmpRid := { pageNo := 7, slotNo := 7 }, record := { data := [], length := 0 } }

/-- The state of `exScan` after one call of `scanNext`. -/
def exScan1 : State :=
  match HeapFileScan.scanNext 4 exLocals exScan with
  | some r => r.2.2
  | none => exScan

/-- The file `"a"` as `createHeapFile` leaves it on the volume `exCreated`. -/
def exCreatedFile : File :=
  match exCreated.files "a" with
  | some f => f
  | none => File.empty 0 0

/-- Calls of the example session: two inserts, a scan step and a delete. -/
def exCalls : List Call :=
  [Call.insertRecord (exRec 1), Call.scanNext 4 exLocals, Call.insertRecord (exRec 2),
    Call.deleteRecord]

/-- The session after `exCalls`. -/
def exSessionEnd : Session :=
  match Session.run 30 20 (Session.start exRaw exRaw exCreatedFile) exCalls with
  | some r => r.2
  | none => Session.start exRaw exRaw exCreatedFile

/-- The state after a third insert of six bytes: pages 2, 3 and 4 hold one record
each. -/
def exThree : State := (InsertFileScan.insertRecord 30 20 exTwo (exRec 3)).2.2

/-- The state a returning call leaves, or the given state when it did not return. -/
def afterCall {α : Type} (s : State) (r : Option (α × State)) : State :=
  match r with
  | some x => x.2
  | none => s

/-- A scan handle on the three-page file that has stepped to the record on page 3
and deleted it, so that page 3, in the middle of the chain, holds no record. -/
def exEmptied : State :=
  let s0 := stateOf (HeapFileScan.ctor exRaw (exCreated.put "a" (InsertFileScan.dtor exThree)) "a")
  let s1 := afterCall s0 ((HeapFileScan.scanNext 4 exLocals s0).map (fun r => (r.1, r.2.2)))
  let s2 := afterCall s1 ((HeapFileScan.scanNext 4 exLocals s1).map (fun r => (r.1, r.2.2)))
  afterCall s2 (HeapFileScan.deleteRecord s2)

/-- A scan handle freshly opened on the file that `exEmptied` leaves behind, after
`startScan` without filter. -/
def exFresh : State :=
  (HeapFileScan.startScan
    (stateOf (HeapFileScan.ctor exRaw (exCreated.put "a" (HeapFileScan.dtor exEmptied)) "a"))
    0 0 Datatype.STRING none Operator.EQ).2

/-! ## Predicate evaluation: reference notions -/

/-- Lexicographic comparison of two byte strings by byte value; a proper initial
segment comes first. -/
def lexDiff : List Nat → List Nat → Diff
  | [], [] => Diff.zero
  | [], _ :: _ => Diff.neg
  | _ :: _, [] => Diff.pos
  | a :: as, b :: bs =>
      if a < b then Diff.neg else if b < a then Diff.pos else lexDiff as bs

/-- The C string held in the `n` bytes at `p`: the bytes before the first zero byte,
at most `n` of them. -/
def cstring (n : Nat) (p : List Nat) : List Nat :=
  (bytesAt p 0 n).takeWhile (fun c => c != 0)

/-- The comparison `op` applied to the sign of a difference: less, less or equal,
equal, greater or equal, greater, not equal. -/
def Operator.holds (op : Operator) (diff : Diff) : Bool :=
  match op with
  | Operator.LT => diff == Diff.neg
  | Operator.LTE => diff == Diff.neg || diff == Diff.zero
  | Operator.EQ => diff == Diff.zero
  | Operator.GTE => diff == Diff.pos || diff == Diff.zero
  | Operator.GT => diff == Diff.pos
  | Operator.NE => diff != Diff.zero
  | Operator.other _ => false

/-- The numeric comparison `a op b` of two integers. -/
def Operator.compareInt (op : Operator) (a b : Int) : Bool :=
  match op with
  | Operator.LT => decide (a < b)
  | Operator.LTE => decide (a ≤ b)
  | Operator.EQ => decide (a = b)
  | Operator.GTE => decide (a ≥ b)
  | Operator.GT => decide (a > b)
  | Operator.NE => decide (a ≠ b)
  | Operator.other _ => false

/-- A scan state with the filter `attribute > -1` on the integer at offset 0. -/
def exGreater : State :=
  (HeapFileScan.startScan exOpen 0 4 Datatype.INTEGER (some [255, 255, 255, 255])
    Operator.GT).2

/-- A scan state with the filter `attribute = 'a',0,'c'` on the three bytes at
offset 0. -/
def exString : State :=
  (HeapFileScan.startScan exOpen 0 3 Datatype.STRING (some [97, 0, 99]) Operator.EQ).2

/-- A scan state with a string filter of two bytes at offset 2147483647. -/
def exFarOffset : State :=
  (HeapFileScan.startScan exOpen 2147483647 2 Datatype.STRING (some [0]) Operator.EQ).2

/-! ## Further example states -/

/-- The number of live records on the pages of `chain`. -/
def File.liveCount (f : File) (chain : List Int) : Nat :=
  (chain.map (fun q => ((f.pages q).slots.filter Option.isSome).length)).sum

/-- The state after the given consecutive `scanNext` calls, or the given state when
one of them did not return. -/
def afterScans (calls : List (Nat × Locals)) (s : State) : State :=
  match HeapFileScan.scanCalls calls s with
  | some o => o.2
  | none => s

/-- The example volume after `createHeapFile` of the file `"a"` with
`PAGESIZE = 1024` and `DPFIXED = 20`. -/
def exCreatedBig : DB := (createHeapFile 1024 20 exDB "a").2

/-- The file `"a"` of `exCreatedBig`. -/
def exCreatedBigFile : File :=
  match exCreatedBig.files "a" with
  | some f => f
  | none => File.empty 0 0

/-- A record of ten equal bytes. -/
def exRec10 (b : Nat) : Record := { data := [b, b, b, b, b, b, b, b, b, b], length := 10 }

/-- Two inserts of ten bytes into the empty file, then `startScan` without filter. -/
def exPrepare : List Call :=
  [Call.insertRecord (exRec10 1), Call.insertRecord (exRec10 2),
    Call.startScan 0 0 Datatype.STRING none Operator.EQ]

/-- The scan handle of the session after `exPrepare`. -/
def exTwoRecords : State :=
  match Session.run 1024 20 (Session.start exRaw exRaw exCreatedBigFile) exPrepare with
  | some r => { h := r.2.scan, f := r.2.f }
  | none => { h := exRaw, f := exCreatedBigFile }

/-- The scan `exScan1`, positioned on record (2,0), after `markScan`. -/
def exMarked : State := (HeapFileScan.markScan exScan1).2

/-- The scan `exMarked` after two further `scanNext` calls, which run it to its end. -/
def exMarkedEnd : State := afterScans [(4, exLocals), (4, exLocals)] exMarked

/-- The scan `exScan` after three `scanNext` calls, the last of which reports the end
of the scan. -/
def exScanEnd : State := afterScans [(4, exLocals), (4, exLocals), (4, exLocals)] exScan

/-- An insert handle freshly opened on the two-page file that `exTwo` leaves behind. -/
def exReopenTwo : State :=
  stateOf (InsertFileScan.ctor exRaw (exCreated.put "a" (InsertFileScan.dtor exTwo)) "a")

/-- The state after an insert of six bytes through the reopened handle `exReopen`; the
record goes to a new page. -/
def exReopenInserted : State := (InsertFileScan.insertRecord 30 20 exReopen (exRec 2)).2.2

/-- The volume after the handle of `exReopenInserted` has been destroyed. -/
def exAfterReinsert : DB := exCreated.put "a" (InsertFileScan.dtor exReopenInserted)

/-- A handle opened on the file `"a"` of `exAfterReinsert`. -/
def exReopenAgain : State := stateOf (InsertFileScan.ctor exRaw exAfterReinsert "a")

@[simp] theorem setAt_same {α : Type} (f : Int → α) (k : Int) (v : α) : setAt f k v k = v := by
  simp [setAt]

theorem setAt_other {α : Type} (f : Int → α) (k q : Int) (v : α) (h : q ≠ k) :
    setAt f k v q = f q := by
  simp [setAt, h]

@[simp] theorem BufMgr.readPage_ok (f : File) (p : Int) :
    (BufMgr.readPage f p).1 = Status.OK ↔ f.valid p = true := by
  unfold BufMgr.readPage; split <;> simp_all

@[simp] theorem BufMgr.readPage_pages (f : File) (p : Int) :
    (BufMgr.readPage f p).2.pages = f.pages := by
  unfold BufMgr.readPage; split <;> rfl

@[simp] theorem BufMgr.readPage_valid (f : File) (p : Int) :
    (BufMgr.readPage f p).2.valid = f.valid := by
  unfold BufMgr.readPage; split <;> rfl

@[simp] theorem BufMgr.readPage_hdr (f : File) (p : Int) :
    (BufMgr.readPage f p).2.hdr = f.hdr := by
  unfold BufMgr.readPage; split <;> rfl

@[simp] theorem BufMgr.readPage_firstPageNo (f : File) (p : Int) :
    (BufMgr.readPage f p).2.firstPageNo = f.firstPageNo := by
  unfold BufMgr.readPage; split <;> rfl

@[simp] theorem BufMgr.readPage_nextNo (f : File) (p : Int) :
    (BufMgr.readPage f p).2.nextNo = f.nextNo := by
  unfold BufMgr.readPage; split <;> rfl

@[simp] theorem BufMgr.unPinPage_pages (f : File) (p : Int) (d : Bool) :
    (BufMgr.unPinPage f p d).2.pages = f.pages := by
  unfold BufMgr.unPinPage; split <;> rfl

@[simp] theorem BufMgr.unPinPage_valid (f : File) (p : Int) (d : Bool) :
    (BufMgr.unPinPage f p d).2.valid = f.valid := by
  unfold BufMgr.unPinPage; split <;> rfl

@[simp] theorem BufMgr.unPinPage_hdr (f : File) (p : Int) (d : Bool) :
    (BufMgr.unPinPage f p d).2.hdr = f.hdr := by
  unfold BufMgr.unPinPage; split <;> rfl

@[simp] theorem BufMgr.unPinPage_firstPageNo (f : File) (p : Int) (d : Bool) :
    (BufMgr.unPinPage f p d).2.firstPageNo = f.firstPageNo := by
  unfold BufMgr.unPinPage; split <;> rfl

@[simp] theorem BufMgr.unPinPage_nextNo (f : File) (p : Int) (d : Bool) :
    (BufMgr.unPinPage f p d).2.nextNo = f.nextNo := by
  unfold BufMgr.unPinPage; split <;> rfl

/-- A file that differs from a well-formed one only in pin counts, dirty marks and
the call log is well-formed. -/
theorem File.WF.wf_congr {f g : File} (h : f.WF) (hp : g.pages = f.pages) (hv : g.valid = f.valid)
    (hh : g.hdr = f.hdr) (hf : g.firstPageNo = f.firstPageNo) (hn : g.nextNo = f.nextNo) :
    g.WF := by
  constructor
  · rw [hf]; exact h.hdrNo
  · rw [hf, hv]; exact h.hdrValid
  · rw [hv, hn]; exact h.fresh
  · rw [hv, hf, hp]; exact h.selfNo
  · rw [hh, hf]; exact h.firstData
  · rw [hh, hf]; exact h.lastData

theorem File.WF.wf_readPage {f : File} (h : f.WF) (p : Int) : (BufMgr.readPage f p).2.WF :=
  h.wf_congr (by simp) (by simp) (by simp) (by simp) (by simp)

theorem File.WF.wf_unPinPage {f : File} (h : f.WF) (p : Int) (d : Bool) :
    (BufMgr.unPinPage f p d).2.WF :=
  h.wf_congr (by simp) (by simp) (by simp) (by simp) (by simp)

theorem Page.insertRecord_ok {p : Page} {rec : Record} {rid : RID} {q : Page}
    (h : p.insertRecord rec = .ok (rid, q)) :
    rid = { pageNo := p.curPage, slotNo := p.slots.length } ∧
    q.curPage = p.curPage ∧ q.nextPage = p.nextPage ∧
    q.slots = p.slots ++ [some (Page.stored rec)] := by
  unfold Page.insertRecord at h
  split at h
  · simp only [Except.ok.injEq, Prod.mk.injEq] at h
    obtain ⟨h1, h2⟩ := h
    subst h1 h2
    simp
  · cases h

/-! ### Oversized records (insertRecord) -/

theorem toUnsigned_le_of_nonneg (n : Int) (h : 0 ≤ n) : (toUnsigned n : Int) ≤ n := by
  unfold toUnsigned
  omega

theorem toUnsigned_of_neg (n : Int) (h : n < 0) (hlo : -2147483648 ≤ n) :
    2147483648 ≤ toUnsigned n := by
  unfold toUnsigned
  omega

theorem Page.insertRecord_error {p : Page} {rec : Record} {st : Status}
    (h : p.insertRecord rec = .error st) : st = Status.NOSPACE := by
  unfold Page.insertRecord at h
  split at h
  · cases h
  · cases h; rfl

theorem BufMgr.readPage_status (f : File) (p : Int) :
    (BufMgr.readPage f p).1 = Status.OK ∨ (BufMgr.readPage f p).1 = Status.BADPAGENO := by
  unfold BufMgr.readPage; split <;> simp

theorem BufMgr.allocPage_status (f : File) :
    (BufMgr.allocPage f).1 = Status.OK ∨ (BufMgr.allocPage f).1 = Status.UNIXERR := by
  unfold BufMgr.allocPage; split <;> simp

theorem InsertFileScan.insertOverflow_status_ne (PAGESIZE DPFIXED : Nat) (s : State) (cp : Int)
    (rec : Record) :
    (InsertFileScan.insertOverflow PAGESIZE DPFIXED s cp rec).1 ≠ Status.INVALIDRECLEN := by
  unfold InsertFileScan.insertOverflow
  simp only [Page.setNextPage]
  rcases BufMgr.allocPage_status s.f with h | h
  · simp only [h, ne_eq, not_true_eq_false, if_false]
    split
    · simp
    · rename_i st hh
      rw [Page.insertRecord_error hh]; simp
  · simp [h]

theorem InsertFileScan.insertCurrent_status_ne (PAGESIZE DPFIXED : Nat) (s : State) (cp : Int)
    (rec : Record) :
    (InsertFileScan.insertCurrent PAGESIZE DPFIXED s cp rec).1 ≠ Status.INVALIDRECLEN := by
  unfold InsertFileScan.insertCurrent
  split
  · simp
  · exact InsertFileScan.insertOverflow_status_ne _ _ _ _ _

theorem InsertFileScan.insertRecord_status_ne (PAGESIZE DPFIXED : Nat) (s : State) (rec : Record)
    (h : toUnsigned rec.length ≤ PAGESIZE - DPFIXED) :
    (InsertFileScan.insertRecord PAGESIZE DPFIXED s rec).1 ≠ Status.INVALIDRECLEN := by
  unfold InsertFileScan.insertRecord
  rw [if_neg (by omega)]
  split
  · rcases BufMgr.readPage_status s.f s.f.hdr.lastPage with h1 | h1
    · simp only [h1, ne_eq, not_true_eq_false, if_false]
      exact InsertFileScan.insertCurrent_status_ne _ _ _ _ _
    · simp [h1]
  · exact InsertFileScan.insertCurrent_status_ne _ _ _ _ _

/-- Claim C8: a record whose length, read as an unsigned 32-bit value, exceeds
`PAGESIZE - DPFIXED` is answered `INVALIDRECLEN` with the whole state (cursor, header,
dirty flags, pages, pin counts and the log of cache calls) unchanged; a negative
length is such a length; and a record whose length is at most `PAGESIZE - DPFIXED`
is never answered `INVALIDRECLEN`. -/
theorem insertRecord_rejects_oversized (PAGESIZE DPFIXED : Nat) (s : State) (rec : Record) :
    (toUnsigned rec.length > PAGESIZE - DPFIXED →
      InsertFileScan.insertRecord PAGESIZE DPFIXED s rec = (Status.INVALIDRECLEN, none, s)) ∧
    (rec.length < 0 → -2147483648 ≤ rec.length → PAGESIZE - DPFIXED < 2147483648 →
      InsertFileScan.insertRecord PAGESIZE DPFIXED s rec = (Status.INVALIDRECLEN, none, s)) ∧
    (toUnsigned rec.length ≤ PAGESIZE - DPFIXED →
      (InsertFileScan.insertRecord PAGESIZE DPFIXED s rec).1 ≠ Status.INVALIDRECLEN) ∧
    (0 ≤ rec.length → rec.length ≤ ((PAGESIZE - DPFIXED : Nat) : Int) →
      (InsertFileScan.insertRecord PAGESIZE DPFIXED s rec).1 ≠ Status.INVALIDRECLEN) := by
  have key : toUnsigned rec.length > PAGESIZE - DPFIXED →
      InsertFileScan.insertRecord PAGESIZE DPFIXED s rec = (Status.INVALIDRECLEN, none, s) := by
    intro h
    unfold InsertFileScan.insertRecord
    rw [if_pos h]
  refine ⟨key, ?_, InsertFileScan.insertRecord_status_ne _ _ _ _, ?_⟩
  · intro hneg hlo hcap
    have := toUnsigned_of_neg _ hneg hlo
    exact key (by omega)
  · intro h0 hle
    have := toUnsigned_le_of_nonneg _ h0
    exact InsertFileScan.insertRecord_status_ne _ _ _ _ (by omega)

theorem insertRecord_rejects_oversized_witness :
    (toUnsigned (2000 : Int) > 1024 - 20 ∧
      InsertFileScan.insertRecord 1024 20 exOpen { data := [], length := 2000 } =
        (Status.INVALIDRECLEN, none, exOpen)) ∧
    InsertFileScan.insertRecord 1024 20 exOpen { data := [], length := -1 } =
        (Status.INVALIDRECLEN, none, exOpen) ∧
    (toUnsigned (6 : Int) ≤ 1024 - 20 ∧
      (InsertFileScan.insertRecord 1024 20 exOpen (exRec 1)).1 ≠ Status.INVALIDRECLEN) :=
  ⟨⟨by decide,
     (insertRecord_rejects_oversized 1024 20 exOpen { data := [], length := 2000 }).1 (by decide)⟩,
   (insertRecord_rejects_oversized 1024 20 exOpen { data := [], length := -1 }).2.1
     (by decide) (by decide) (by decide),
   ⟨by decide, (insertRecord_rejects_oversized 1024 20 exOpen (exRec 1)).2.2.1 (by decide)⟩⟩

/-! ### Validation of the scan parameters (startScan) -/

/-- Claim C9: with a non-null literal `startScan` answers `BADSCANPARM` exactly when
the offset is negative, or the length is below one, or the type is none of
STRING/INTEGER/FLOAT, or the type is INTEGER and the length is not `sizeof(int)`, or
the type is FLOAT and the length is not `sizeof(float)`, or the operator is none of
the six comparisons; in every other case it answers `OK` and the stored filter tuple
is the argument tuple. -/
theorem startScan_validation (s : State) (offset_ length_ : Int) (type_ : Datatype)
    (lit : List Nat) (op_ : Operator) :
    ((HeapFileScan.startScan s offset_ length_ type_ (some lit) op_).1 = Status.BADSCANPARM ↔
      (offset_ < 0 ∨ length_ < 1 ∨
        (type_ ≠ Datatype.STRING ∧ type_ ≠ Datatype.INTEGER ∧ type_ ≠ Datatype.FLOAT) ∨
        (type_ = Datatype.INTEGER ∧ length_ ≠ sizeofInt) ∨
        (type_ = Datatype.FLOAT ∧ length_ ≠ sizeofFloat) ∨
        (op_ ≠ Operator.LT ∧ op_ ≠ Operator.LTE ∧ op_ ≠ Operator.EQ ∧ op_ ≠ Operator.GTE ∧
          op_ ≠ Operator.GT ∧ op_ ≠ Operator.NE))) ∧
    (¬ (offset_ < 0 ∨ length_ < 1 ∨
        (type_ ≠ Datatype.STRING ∧ type_ ≠ Datatype.INTEGER ∧ type_ ≠ Datatype.FLOAT) ∨
        (type_ = Datatype.INTEGER ∧ length_ ≠ sizeofInt) ∨
        (type_ = Datatype.FLOAT ∧ length_ ≠ sizeofFloat) ∨
        (op_ ≠ Operator.LT ∧ op_ ≠ Operator.LTE ∧ op_ ≠ Operator.EQ ∧ op_ ≠ Operator.GTE ∧
          op_ ≠ Operator.GT ∧ op_ ≠ Operator.NE)) →
      HeapFileScan.startScan s offset_ length_ type_ (some lit) op_ =
        (Status.OK, { s with h := { s.h with offset := offset_, length := length_, type := type_,
                                             filter := some lit, op := op_ } })) := by
  unfold HeapFileScan.startScan
  simp only []
  constructor
  · constructor
    · intro h
      split at h
      · rename_i hc; tauto
      · simp at h
    · intro h
      rw [if_pos (by tauto)]
  · intro h
    rw [if_neg (by tauto)]

theorem startScan_validation_witness :
    (HeapFileScan.startScan exOpen (-1) 4 Datatype.INTEGER (some [5, 0, 0, 0]) Operator.EQ).1 =
      Status.BADSCANPARM ∧
    (HeapFileScan.startScan exOpen 0 2 Datatype.INTEGER (some [5, 0, 0, 0]) Operator.EQ).1 =
      Status.BADSCANPARM ∧
    (HeapFileScan.startScan exOpen 0 4 Datatype.INTEGER (some [5, 0, 0, 0])
        (Operator.other 9)).1 = Status.BADSCANPARM ∧
    HeapFileScan.startScan exOpen 0 4 Datatype.INTEGER (some [5, 0, 0, 0]) Operator.EQ =
      (Status.OK, { exOpen with h := { exOpen.h with offset := 0, length := 4,
                                                     type := Datatype.INTEGER,
                                                     filter := some [5, 0, 0, 0],
                                                     op := Operator.EQ } }) :=
  ⟨(startScan_validation exOpen (-1) 4 Datatype.INTEGER [5, 0, 0, 0] Operator.EQ).1.mpr
     (Or.inl (by decide)),
   (startScan_validation exOpen 0 2 Datatype.INTEGER [5, 0, 0, 0] Operator.EQ).1.mpr
     (Or.inr (Or.inr (Or.inr (Or.inl ⟨rfl, by decide⟩)))),
   (startScan_validation exOpen 0 4 Datatype.INTEGER [5, 0, 0, 0] (Operator.other 9)).1.mpr
     (Or.inr (Or.inr (Or.inr (Or.inr (Or.inr (by decide)))))),
   (startScan_validation exOpen 0 4 Datatype.INTEGER [5, 0, 0, 0] Operator.EQ).2 (by decide)⟩

/-- Claim C10, as amended: a `startScan` that answers `BADSCANPARM` leaves the whole
scan state as it was, so afterwards a filter is installed exactly if one was
installed before the call. -/
theorem startScan_failure_unchanged (s : State) (offset_ length_ : Int) (type_ : Datatype)
    (filter_ : Option (List Nat)) (op_ : Operator)
    (h : (HeapFileScan.startScan s offset_ length_ type_ filter_ op_).1 = Status.BADSCANPARM) :
    (HeapFileScan.startScan s offset_ length_ type_ filter_ op_).2 = s ∧
    ((HeapFileScan.startScan s offset_ length_ type_ filter_ op_).2.h.filter = none ↔
      s.h.filter = none) := by
  have : (HeapFileScan.startScan s offset_ length_ type_ filter_ op_).2 = s := by
    unfold HeapFileScan.startScan at h ⊢
    cases filter_ with
    | none => simp at h
    | some lit =>
        simp only [] at h ⊢
        split
        · rfl
        · rename_i hc; rw [if_neg hc] at h; simp at h
  exact ⟨this, by rw [this]⟩

theorem startScan_failure_unchanged_witness :
    (HeapFileScan.startScan exFiltered (-1) 4 Datatype.INTEGER (some [5, 0, 0, 0])
        Operator.EQ).1 = Status.BADSCANPARM ∧
    (HeapFileScan.startScan exFiltered (-1) 4 Datatype.INTEGER (some [5, 0, 0, 0])
        Operator.EQ).2 = exFiltered :=
  ⟨by decide,
   (startScan_failure_unchanged exFiltered (-1) 4 Datatype.INTEGER (some [5, 0, 0, 0])
      Operator.EQ (by decide)).1⟩

/-- Claim C10 as stated fails: on a scan with an installed filter a rejected
`startScan` leaves that filter installed. -/
theorem startScan_rejected_clears_filter_false :
    ¬ (∀ (s : State) (offset_ length_ : Int) (type_ : Datatype) (lit : List Nat) (op_ : Operator),
        (HeapFileScan.startScan s offset_ length_ type_ (some lit) op_).1 = Status.BADSCANPARM →
        (HeapFileScan.startScan s offset_ length_ type_ (some lit) op_).2.h.filter = none ∧
        ∀ rec, HeapFileScan.matchRec
          (HeapFileScan.startScan s offset_ length_ type_ (some lit) op_).2.h rec = true) := by
  intro h
  have h1 := (h exFiltered (-1) 4 Datatype.INTEGER [5, 0, 0, 0] Operator.EQ (by decide)).1
  revert h1
  decide
/-! ### Header bookkeeping of an insert that appends a page -/

/-- Claim C5 fails on the code: the second insert of six bytes through `exOne` finds
no room on page 2, appends page 3 and succeeds with a RID on page 3, yet
`header.lastPage` still names page 2, whose next-page link is now 3 and not -1. -/
theorem insertRecord_overflow_lastPage_stale :
    exOne.h.curPage = some 2 ∧
    ((exOne.f.pages 2).insertRecord (exRec 2)).toBool = false ∧
    (InsertFileScan.insertRecord 30 20 exOne (exRec 2)).1 = Status.OK ∧
    (InsertFileScan.insertRecord 30 20 exOne (exRec 2)).2.1 = some { pageNo := 3, slotNo := 0 } ∧
    (InsertFileScan.insertRecord 30 20 exOne (exRec 2)).2.2.f.hdr.lastPage = 2 ∧
    ((InsertFileScan.insertRecord 30 20 exOne (exRec 2)).2.2.f.pages 2).nextPage = 3 := by
  decide

/-- Claim C6 fails on the code: two successive inserts through `exOne` each append a
page (the RIDs are on the new pages 3 and 4), yet `header.pageCnt` is 1 before and
after, while the chain from `header.firstPage` has three data pages. -/
theorem insertRecord_overflow_pageCnt_stale :
    exOne.f.hdr.pageCnt = 1 ∧
    (InsertFileScan.insertRecord 30 20 exOne (exRec 2)).1 = Status.OK ∧
    (InsertFileScan.insertRecord 30 20 exOne (exRec 2)).2.1 = some { pageNo := 3, slotNo := 0 } ∧
    (InsertFileScan.insertRecord 30 20 exTwo (exRec 3)).1 = Status.OK ∧
    (InsertFileScan.insertRecord 30 20 exTwo (exRec 3)).2.1 = some { pageNo := 4, slotNo := 0 } ∧
    (InsertFileScan.insertRecord 30 20 exTwo (exRec 3)).2.2.f.hdr.pageCnt = 1 ∧
    (InsertFileScan.insertRecord 30 20 exTwo (exRec 3)).2.2.f.hdr.firstPage = 2 ∧
    ((InsertFileScan.insertRecord 30 20 exTwo (exRec 3)).2.2.f.pages 2).nextPage = 3 ∧
    ((InsertFileScan.insertRecord 30 20 exTwo (exRec 3)).2.2.f.pages 3).nextPage = 4 ∧
    ((InsertFileScan.insertRecord 30 20 exTwo (exRec 3)).2.2.f.pages 4).nextPage = -1 := by
  decide

/-- Claim C7 fails on the code: on the freshly reopened handle `exReopen` (header
dirty flag false) an insert that appends a page succeeds, increments `recCnt` and
sets the page dirty flag, but leaves the header dirty flag false. -/
theorem insertRecord_overflow_header_clean :
    exReopen.h.hdrDirtyFlag = false ∧
    exReopen.h.curPage = some 2 ∧
    ((exReopen.f.pages 2).insertRecord (exRec 2)).toBool = false ∧
    (InsertFileScan.insertRecord 30 20 exReopen (exRec 2)).1 = Status.OK ∧
    (InsertFileScan.insertRecord 30 20 exReopen (exRec 2)).2.2.f.hdr.recCnt =
      exReopen.f.hdr.recCnt + 1 ∧
    (InsertFileScan.insertRecord 30 20 exReopen (exRec 2)).2.2.h.curDirtyFlag = true ∧
    (InsertFileScan.insertRecord 30 20 exReopen (exRec 2)).2.2.h.hdrDirtyFlag = false := by
  decide

/-! ### Insert then lookup -/

/-- The overflow branch keeps the file well-formed and the cursor coherent. -/
theorem insertOverflow_inv (PAGESIZE DPFIXED : Nat) (s : State) (cp : Int) (rec : Record)
    (hw : s.f.WF) (hc : s.CursorOk) (hcp : s.h.curPage = some cp) :
    (InsertFileScan.insertOverflow PAGESIZE DPFIXED s cp rec).2.2.f.WF ∧
    (InsertFileScan.insertOverflow PAGESIZE DPFIXED s cp rec).2.2.CursorOk := by
  obtain ⟨hno, hval, hne⟩ := hc cp hcp
  have hlt : cp < s.f.nextNo := hw.fresh cp hval
  have hlt0 : s.f.firstPageNo < s.f.nextNo := hw.fresh _ hw.hdrValid
  unfold InsertFileScan.insertOverflow BufMgr.allocPage
  cases hal : s.f.allocLeft with
  | zero =>
      simp only [ne_eq, reduceCtorEq, not_false_eq_true, if_true]
      exact ⟨hw.wf_congr rfl rfl rfl rfl rfl, hc⟩
  | succ n =>
      simp only [ne_eq, not_true_eq_false, if_false, Page.setNextPage]
      split
      · rename_i rid p hins
        obtain ⟨-, hcur, -, -⟩ := Page.insertRecord_ok hins
        simp only [BufMgr.unPinPage_pages, setAt_same] at hcur
        rw [setAt_other _ _ _ _ (by omega : s.f.nextNo ≠ cp), setAt_same] at hcur
        refine ⟨⟨?_, ?_, ?_, ?_, ?_, ?_⟩, ?_⟩
        · simp [hw.hdrNo]
        · simp [hw.hdrNo, setAt, hw.hdrValid]
        · intro q hq
          simp only [BufMgr.unPinPage_valid, BufMgr.unPinPage_nextNo, setAt] at hq ⊢
          split at hq
          · omega
          · have := hw.fresh q hq; omega
        · intro q hq hqn
          simp only [BufMgr.unPinPage_valid, BufMgr.unPinPage_firstPageNo,
            BufMgr.unPinPage_pages, hw.hdrNo, if_false] at hq hqn ⊢
          by_cases h1 : q = s.f.nextNo
          · subst h1; rw [setAt_same, hcur]; rfl
          · rw [setAt_other _ _ _ _ h1]
            rw [setAt_other _ _ _ _ h1] at hq
            by_cases h2 : q = cp
            · subst h2; rw [setAt_same]
              simp only [setAt_other _ _ _ _ h1]
              exact hw.selfNo q hq hqn
            · rw [setAt_other _ _ _ _ h2, setAt_other _ _ _ _ h1, setAt_other _ _ _ _ h1]
              exact hw.selfNo q hq hqn
        · simp [hw.hdrNo, hw.firstData]
        · simp [hw.hdrNo, hw.lastData]
        · intro q hq
          simp only [Option.some.injEq] at hq
          subst hq
          simp only [BufMgr.unPinPage_valid, BufMgr.unPinPage_firstPageNo, setAt_same,
            hw.hdrNo, if_false, true_and]
          omega
      · refine ⟨⟨?_, ?_, ?_, ?_, ?_, ?_⟩, ?_⟩
        · simp [hw.hdrNo]
        · simp [hw.hdrNo, setAt, hw.hdrValid]
        · intro q hq
          simp only [BufMgr.unPinPage_valid, BufMgr.unPinPage_nextNo, setAt] at hq ⊢
          split at hq
          · omega
          · have := hw.fresh q hq; omega
        · intro q hq hqn
          simp only [BufMgr.unPinPage_valid, BufMgr.unPinPage_firstPageNo,
            BufMgr.unPinPage_pages, hw.hdrNo, if_false] at hq hqn ⊢
          by_cases h1 : q = s.f.nextNo
          · subst h1
            rw [setAt_other _ _ _ _ (by omega : s.f.nextNo ≠ cp), setAt_same]; rfl
          · rw [setAt_other _ _ _ _ h1] at hq
            by_cases h2 : q = cp
            · subst h2; rw [setAt_same]
              simp only [setAt_other _ _ _ _ h1]
              exact hw.selfNo q hq hqn
            · rw [setAt_other _ _ _ _ h2, setAt_other _ _ _ _ h1, setAt_other _ _ _ _ h1]
              exact hw.selfNo q hq hqn
        · simp [hw.hdrNo, hw.firstData]
        · simp [hw.hdrNo, hw.lastData]
        · intro q hq
          simp at hq

theorem insertCurrent_inv (PAGESIZE DPFIXED : Nat) (s : State) (cp : Int) (rec : Record)
    (hw : s.f.WF) (hc : s.CursorOk) (hcp : s.h.curPage = some cp) :
    (InsertFileScan.insertCurrent PAGESIZE DPFIXED s cp rec).2.2.f.WF ∧
    (InsertFileScan.insertCurrent PAGESIZE DPFIXED s cp rec).2.2.CursorOk := by
  obtain ⟨hno, hval, hne⟩ := hc cp hcp
  unfold InsertFileScan.insertCurrent
  split
  · rename_i rid p hins
    obtain ⟨-, hcur, -, -⟩ := Page.insertRecord_ok hins
    refine ⟨⟨hw.hdrNo, hw.hdrValid, hw.fresh, ?_, hw.firstData, hw.lastData⟩, ?_⟩
    · intro q hq hqn
      simp only at hq hqn ⊢
      by_cases h2 : q = cp
      · subst h2; rw [setAt_same, hcur]; exact hw.selfNo q hq hqn
      · rw [setAt_other _ _ _ _ h2]; exact hw.selfNo q hq hqn
    · intro q hq
      exact hc q hq
  · exact insertOverflow_inv _ _ _ _ _ hw hc hcp

theorem insertRecord_inv (PAGESIZE DPFIXED : Nat) (s : State) (rec : Record)
    (hw : s.f.WF) (hc : s.CursorOk) :
    (InsertFileScan.insertRecord PAGESIZE DPFIXED s rec).2.2.f.WF ∧
    (InsertFileScan.insertRecord PAGESIZE DPFIXED s rec).2.2.CursorOk := by
  unfold InsertFileScan.insertRecord
  split
  · exact ⟨hw, hc⟩
  · split
    · rename_i hnone
      by_cases hv : s.f.valid s.f.hdr.lastPage = true
      · rw [if_neg (by simp [hv])]
        apply insertCurrent_inv
        · exact hw.wf_readPage _
        · intro q hq
          simp only [Option.some.injEq] at hq
          subst hq
          simp [hv, hw.lastData]
        · rfl
      · rw [if_pos (by simp [hv])]
        refine ⟨hw.wf_readPage _, ?_⟩
        intro q hq
        simp [hnone] at hq
    · rename_i cp hcp
      exact insertCurrent_inv _ _ _ _ _ hw hc hcp

theorem getRecord_inv (s : State) (rid : RID) (hw : s.f.WF) (hc : s.CursorOk)
    (hrid : rid.pageNo ≠ s.f.firstPageNo) :
    (HeapFile.getRecord s rid).2.2.f.WF ∧ (HeapFile.getRecord s rid).2.2.CursorOk := by
  unfold HeapFile.getRecord
  split
  · rename_i hnone
    by_cases hv : s.f.valid rid.pageNo = true
    · rw [if_neg (by simp [hv])]
      have hcur : ∀ q, some rid.pageNo = some q →
          rid.pageNo = q ∧ (BufMgr.readPage s.f rid.pageNo).2.valid q = true ∧
            q ≠ (BufMgr.readPage s.f rid.pageNo).2.firstPageNo := by
        intro q hq
        simp only [Option.some.injEq] at hq
        subst hq
        simp [hv, hrid]
      split
      · exact ⟨hw.wf_readPage _, hcur⟩
      · exact ⟨hw.wf_readPage _, hcur⟩
    · rw [if_pos (by simp [hv])]
      refine ⟨hw.wf_readPage _, ?_⟩
      intro q hq
      simp [hnone] at hq
  · rename_i cp hcp
    split
    · split
      · exact ⟨hw, hc⟩
      · exact ⟨hw, fun q hq => hc q hq⟩
    · dsimp only
      split
      · refine ⟨hw.wf_unPinPage _ _, ?_⟩
        intro q hq
        simpa using hc q hq
      · by_cases hv : s.f.valid rid.pageNo = true
        · rw [if_neg (by simp [hv])]
          have hcur : ∀ q, some rid.pageNo = some q →
              rid.pageNo = q ∧
              (BufMgr.readPage (BufMgr.unPinPage s.f s.h.curPageNo s.h.curDirtyFlag).2
                rid.pageNo).2.valid q = true ∧
              q ≠ (BufMgr.readPage (BufMgr.unPinPage s.f s.h.curPageNo s.h.curDirtyFlag).2
                rid.pageNo).2.firstPageNo := by
            intro q hq
            simp only [Option.some.injEq] at hq
            subst hq
            simp [hv, hrid]
          split
          · exact ⟨(hw.wf_unPinPage _ _).wf_readPage _, hcur⟩
          · exact ⟨(hw.wf_unPinPage _ _).wf_readPage _, hcur⟩
        · rw [if_pos (by simp [hv])]
          refine ⟨(hw.wf_unPinPage _ _).wf_readPage _, ?_⟩
          intro q hq
          simp at hq

theorem openBody_inv (raw : HeapFile) (f : File) (s : State) (hw : f.WF)
    (h : HeapFile.openBody raw f = (Status.OK, s)) : s.f.WF ∧ s.CursorOk := by
  unfold HeapFile.openBody at h
  simp only at h
  split at h
  · rename_i h1
    simp only [Prod.mk.injEq] at h
    exact absurd h.1 h1
  · split at h
    · rename_i h1 h2
      simp only [Prod.mk.injEq] at h
      exact absurd h.1 h2
    · rename_i h1 h2
      simp only [Prod.mk.injEq, true_and] at h
      subst h
      refine ⟨(hw.wf_readPage _).wf_readPage _, ?_⟩
      intro q hq
      simp only [Option.some.injEq] at hq
      subst hq
      simp only [ne_eq, BufMgr.readPage_ok, not_not, BufMgr.readPage_hdr,
        BufMgr.readPage_valid, BufMgr.readPage_firstPageNo] at h1 h2 ⊢
      exact ⟨trivial, h2, hw.firstData⟩

theorem InsertReachable.inv {PAGESIZE DPFIXED : Nat} {s : State}
    (h : InsertReachable PAGESIZE DPFIXED s) : s.f.WF ∧ s.CursorOk := by
  induction h with
  | opened raw f s hw ho => exact openBody_inv raw f s hw ho
  | insertRecord s rec _ ih => exact insertRecord_inv _ _ s rec ih.1 ih.2
  | getRecord s rid _ hrid ih => exact getRecord_inv s rid ih.1 ih.2 hrid
theorem Page.getRecord_insertRecord {p : Page} {rec : Record} {rid : RID} {q : Page}
    (h : p.insertRecord rec = .ok (rid, q)) : q.getRecord rid = .ok (Page.stored rec) := by
  obtain ⟨hr, -, -, hs⟩ := Page.insertRecord_ok h
  subst hr
  unfold Page.getRecord Page.slotAt
  simp [hs, List.getD_eq_getElem?_getD]

theorem insertOverflow_lookup (PAGESIZE DPFIXED : Nat) (s : State) (cp : Int) (rec : Record)
    (r : RID) (s' : State) (hw : s.f.WF) (hc : s.CursorOk) (hcp : s.h.curPage = some cp)
    (h : InsertFileScan.insertOverflow PAGESIZE DPFIXED s cp rec = (Status.OK, some r, s')) :
    s'.h.curPage = some r.pageNo ∧ s'.h.curPageNo = r.pageNo ∧
      (s'.f.pages r.pageNo).getRecord r = .ok (Page.stored rec) := by
  obtain ⟨hno, hval, hne⟩ := hc cp hcp
  have hlt : cp < s.f.nextNo := hw.fresh cp hval
  unfold InsertFileScan.insertOverflow BufMgr.allocPage at h
  cases hal : s.f.allocLeft with
  | zero =>
      rw [hal] at h
      simp at h
  | succ n =>
      rw [hal] at h
      simp only [ne_eq, not_true_eq_false, if_false, Page.setNextPage] at h
      split at h
      · rename_i rid p hins
        simp only [Prod.mk.injEq, Option.some.injEq, true_and] at h
        obtain ⟨h1, h2⟩ := h
        subst h1 h2
        have hget := Page.getRecord_insertRecord hins
        obtain ⟨hr, -, -, -⟩ := Page.insertRecord_ok hins
        simp only [BufMgr.unPinPage_pages] at hr
        rw [setAt_other _ _ _ _ (by omega : s.f.nextNo ≠ cp), setAt_same] at hr
        have hpn : rid.pageNo = s.f.nextNo := by rw [hr]; rfl
        refine ⟨by simp [hpn], by simp [hpn], ?_⟩
        simp only [hpn, setAt_same]
        exact hget
      · simp only [Prod.mk.injEq] at h
        exact absurd h.2.1 (by simp)

theorem insertCurrent_lookup (PAGESIZE DPFIXED : Nat) (s : State) (cp : Int) (rec : Record)
    (r : RID) (s' : State) (hw : s.f.WF) (hc : s.CursorOk) (hcp : s.h.curPage = some cp)
    (h : InsertFileScan.insertCurrent PAGESIZE DPFIXED s cp rec = (Status.OK, some r, s')) :
    s'.h.curPage = some r.pageNo ∧ s'.h.curPageNo = r.pageNo ∧
      (s'.f.pages r.pageNo).getRecord r = .ok (Page.stored rec) := by
  obtain ⟨hno, hval, hne⟩ := hc cp hcp
  unfold InsertFileScan.insertCurrent at h
  split at h
  · rename_i rid p hins
    simp only [Prod.mk.injEq, Option.some.injEq, true_and] at h
    obtain ⟨h1, h2⟩ := h
    subst h1 h2
    have hget := Page.getRecord_insertRecord hins
    obtain ⟨hr, -, -, -⟩ := Page.insertRecord_ok hins
    have hpn : rid.pageNo = cp := by rw [hr]; exact hw.selfNo cp hval hne
    refine ⟨by simp [hpn, hcp], by simp [hpn, hno], ?_⟩
    simp only [hpn, setAt_same]
    exact hget
  · exact insertOverflow_lookup _ _ _ _ _ _ _ hw hc hcp h

theorem insertRecord_lookup (PAGESIZE DPFIXED : Nat) (s : State) (rec : Record)
    (r : RID) (s' : State) (hw : s.f.WF) (hc : s.CursorOk)
    (h : InsertFileScan.insertRecord PAGESIZE DPFIXED s rec = (Status.OK, some r, s')) :
    s'.h.curPage = some r.pageNo ∧ s'.h.curPageNo = r.pageNo ∧
      (s'.f.pages r.pageNo).getRecord r = .ok (Page.stored rec) := by
  unfold InsertFileScan.insertRecord at h
  split at h
  · simp at h
  · split at h
    · rename_i hnone
      by_cases hv : s.f.valid s.f.hdr.lastPage = true
      · rw [if_neg (by simp [hv])] at h
        refine insertCurrent_lookup _ _ _ _ _ _ _ (hw.wf_readPage _) ?_ rfl h
        intro q hq
        simp only [Option.some.injEq] at hq
        subst hq
        simp [hv, hw.lastData]
      · rw [if_pos (by simp [hv])] at h
        simp at h
    · rename_i cp hcp
      exact insertCurrent_lookup _ _ _ _ _ _ _ hw hc hcp h

/-- Claim C1: in every state of an insert handle reachable after a successful open,
if `insertRecord` returns `OK` with RID `r`, the `getRecord(r)` that follows returns
`OK` with a record of the same length whose bytes are the `length` bytes of the
inserted record (the inserted record itself when its buffer holds exactly `length`
bytes), leaving the cursor on `r`. -/
theorem insertRecord_getRecord_roundtrip (PAGESIZE DPFIXED : Nat) (s : State) (rec : Record)
    (r : RID) (s' : State) (hs : InsertReachable PAGESIZE DPFIXED s)
    (h : InsertFileScan.insertRecord PAGESIZE DPFIXED s rec = (Status.OK, some r, s')) :
    ∃ got : Record,
      HeapFile.getRecord s' r = (Status.OK, some got, { s' with h := { s'.h with curRec := r } }) ∧
      got.length = rec.length ∧
      got.data = rec.data.take rec.length.toNat ∧
      ((rec.data.length : Int) = rec.length → got = rec) := by
  obtain ⟨hw, hc⟩ := hs.inv
  obtain ⟨h1, h2, h3⟩ := insertRecord_lookup _ _ _ _ _ _ hw hc h
  refine ⟨Page.stored rec, ?_, rfl, rfl, ?_⟩
  · unfold HeapFile.getRecord
    simp only [h1, h2, if_true, h3]
  · intro hl
    unfold Page.stored
    have : rec.length.toNat = rec.data.length := by omega
    rw [this, List.take_length]
theorem exFile_wf : exFile.WF := by
  have hv : exFile.valid = fun q => if q = 2 then true else if q = 1 then true else false := rfl
  have hp : exFile.pages 2 = Page.init 30 20 2 := rfl
  have hf : exFile.firstPageNo = 1 := rfl
  have hn : exFile.nextNo = 3 := rfl
  have hh : exFile.hdr.firstPage = 2 ∧ exFile.hdr.lastPage = 2 := ⟨rfl, rfl⟩
  refine ⟨by rw [hf]; decide, by rw [hf, hv]; rfl, ?_, ?_, by rw [hf, hh.1]; decide,
    by rw [hf, hh.2]; decide⟩
  · intro p hpv
    rw [hv] at hpv
    rw [hn]
    simp only at hpv
    split at hpv
    · omega
    · split at hpv
      · omega
      · cases hpv
  · intro p hpv hne
    rw [hv] at hpv
    rw [hf] at hne
    simp only at hpv
    split at hpv
    · rename_i h2; subst h2; rw [hp]; rfl
    · simp_all

theorem insertRecord_getRecord_roundtrip_witness :
    (InsertReachable 30 20 exOpen ∧
      InsertFileScan.insertRecord 30 20 exOpen (exRec 1) =
        (Status.OK, some { pageNo := 2, slotNo := 0 }, exOne) ∧
      ∃ got : Record,
        HeapFile.getRecord exOne { pageNo := 2, slotNo := 0 } =
          (Status.OK, some got,
            { exOne with h := { exOne.h with curRec := { pageNo := 2, slotNo := 0 } } }) ∧
        got.length = (exRec 1).length ∧
        got.data = (exRec 1).data.take (exRec 1).length.toNat ∧
        ((((exRec 1).data.length : Nat) : Int) = (exRec 1).length → got = exRec 1)) ∧
    (InsertReachable 30 20 exOne ∧
      InsertFileScan.insertRecord 30 20 exOne (exRec 2) =
        (Status.OK, some { pageNo := 3, slotNo := 0 }, exTwo) ∧
      ∃ got : Record,
        HeapFile.getRecord exTwo { pageNo := 3, slotNo := 0 } =
          (Status.OK, some got,
            { exTwo with h := { exTwo.h with curRec := { pageNo := 3, slotNo := 0 } } }) ∧
        got.length = (exRec 2).length ∧
        got.data = (exRec 2).data.take (exRec 2).length.toNat ∧
        ((((exRec 2).data.length : Nat) : Int) = (exRec 2).length → got = exRec 2)) :=
  ⟨⟨InsertReachable.opened exRaw exFile exOpen exFile_wf rfl, rfl,
    insertRecord_getRecord_roundtrip 30 20 exOpen (exRec 1) { pageNo := 2, slotNo := 0 } exOne
      (InsertReachable.opened exRaw exFile exOpen exFile_wf rfl) rfl⟩,
   ⟨InsertReachable.insertRecord exOpen (exRec 1)
      (InsertReachable.opened exRaw exFile exOpen exFile_wf rfl), rfl,
    insertRecord_getRecord_roundtrip 30 20 exOne (exRec 2) { pageNo := 3, slotNo := 0 } exTwo
      (InsertReachable.insertRecord exOpen (exRec 1)
        (InsertReachable.opened exRaw exFile exOpen exFile_wf rfl)) rfl⟩⟩

/-! ### Page-local iteration -/

theorem Page.firstOccupied_some {l : List (Option Record)} {base i : Nat}
    (h : Page.firstOccupied l base = some i) :
    base ≤ i ∧ ∃ recd, l.getD (i - base) none = some recd := by
  induction l generalizing base with
  | nil => simp [Page.firstOccupied] at h
  | cons x rest ih =>
      cases x with
      | some r =>
          simp only [Page.firstOccupied, Option.some.injEq] at h
          subst h
          exact ⟨le_refl _, r, by simp⟩
      | none =>
          simp only [Page.firstOccupied] at h
          obtain ⟨h1, recd, h2⟩ := ih h
          refine ⟨by omega, recd, ?_⟩
          have : i - base = (i - (base + 1)) + 1 := by omega
          rw [this, List.getD_cons_succ]
          exact h2

theorem Page.getRecord_of_getD {p : Page} {i : Nat} {recd : Record}
    (h : p.slots.getD i none = some recd) (pageNo : Int) :
    p.getRecord { pageNo := pageNo, slotNo := i } = .ok recd := by
  unfold Page.getRecord Page.slotAt
  simp only [Int.toNat_ofNat, Int.ofNat_zero_le, if_true, h]

theorem Page.firstRecord_ok {p : Page} {r : RID} (h : p.firstRecord = .ok r) :
    r.pageNo = p.curPage ∧ 0 ≤ r.slotNo ∧ ∃ recd, p.getRecord r = .ok recd := by
  unfold Page.firstRecord at h
  split at h
  · rename_i i hi
    simp only [Except.ok.injEq] at h
    subst h
    obtain ⟨-, recd, h2⟩ := Page.firstOccupied_some hi
    refine ⟨rfl, by simp, recd, ?_⟩
    simp only [Nat.sub_zero] at h2
    exact Page.getRecord_of_getD h2 _
  · cases h

theorem Page.nextRecord_ok {p : Page} {t r : RID} (h : p.nextRecord t = .ok r) :
    r.pageNo = p.curPage ∧ t.slotNo < r.slotNo ∧ ∃ recd, p.getRecord r = .ok recd := by
  unfold Page.nextRecord at h
  simp only at h
  split at h
  · rename_i i hi
    simp only [Except.ok.injEq] at h
    subst h
    obtain ⟨h1, recd, h2⟩ := Page.firstOccupied_some hi
    refine ⟨rfl, by simp only; omega, recd, ?_⟩
    have h3 : p.slots.getD i none = some recd := by
      rw [List.getD_eq_getElem?_getD] at h2 ⊢
      rw [List.getElem?_drop] at h2
      have : (t.slotNo + 1).toNat + (i - (t.slotNo + 1).toNat) = i := by omega
      rw [this] at h2
      exact h2
    exact Page.getRecord_of_getD h3 _
  · cases h
/-! ### The loops of scanNext -/

theorem HeapFileScan.fetch_ok {s : State} {cp : Int} {recd : Record} (rec : Record)
    (h : (s.f.pages cp).getRecord s.h.curRec = .ok recd) :
    HeapFileScan.fetch s cp rec = recd := by
  unfold HeapFileScan.fetch HeapFileScan.getRecord
  rw [h]

theorem HeapFileScan.scanPage_spec (cp : Int) : ∀ (fuel : Nat) (s : State) (tmpRid : RID)
    (rec : Record) (res : Option RID) (s' : State) (rec' : Record),
    HeapFileScan.scanPage cp fuel s tmpRid rec = some (res, s', rec') →
    ∃ c : RID, s' = { s with h := { s.h with curRec := c } } ∧
      (c = s.h.curRec ∨ (c.pageNo = (s.f.pages cp).curPage ∧ tmpRid.slotNo < c.slotNo)) ∧
      (∀ r, res = some r →
        c = r ∧ r.pageNo = (s.f.pages cp).curPage ∧ tmpRid.slotNo < r.slotNo ∧
        ∃ recd, (s.f.pages cp).getRecord r = .ok recd ∧
          HeapFileScan.matchRec { s.h with curRec := c } recd = true) := by
  intro fuel
  induction fuel with
  | zero => intro s tmpRid rec res s' rec' h; simp [HeapFileScan.scanPage] at h
  | succ n ih =>
      intro s tmpRid rec res s' rec' h
      unfold HeapFileScan.scanPage at h
      split at h
      · rename_i nextRid hnext
        obtain ⟨hp, hslot, recd, hget⟩ := Page.nextRecord_ok hnext
        have hfetch : HeapFileScan.fetch { s with h := { s.h with curRec := nextRid } } cp rec
            = recd := HeapFileScan.fetch_ok rec hget
        simp only [hfetch] at h
        split at h
        · rename_i hm
          simp only [Option.some.injEq, Prod.mk.injEq] at h
          obtain ⟨h1, h2, h3⟩ := h
          subst h1 h2 h3
          refine ⟨nextRid, rfl, Or.inr ⟨hp, hslot⟩, ?_⟩
          intro r hr
          simp only [Option.some.injEq] at hr
          subst hr
          exact ⟨rfl, hp, hslot, recd, hget, hm⟩
        · obtain ⟨c, e1, e2, e3⟩ := ih _ _ _ _ _ _ h
          refine ⟨c, e1, ?_, ?_⟩
          · rcases e2 with e2 | ⟨e2, e2'⟩
            · right; rw [e2]; exact ⟨hp, hslot⟩
            · right; exact ⟨e2, by omega⟩
          · intro r hr
            obtain ⟨a1, a2, a3, a4⟩ := e3 r hr
            exact ⟨a1, a2, by omega, a4⟩
      · simp only [Option.some.injEq, Prod.mk.injEq] at h
        obtain ⟨h1, h2, h3⟩ := h
        subst h1 h2 h3
        exact ⟨s.h.curRec, rfl, Or.inl rfl, by intro r hr; cases hr⟩
theorem File.SameContent.refl (f : File) : f.SameContent f := ⟨rfl, rfl, rfl, rfl, rfl⟩

theorem File.SameContent.trans {f g k : File} (h1 : f.SameContent g) (h2 : g.SameContent k) :
    f.SameContent k := by
  obtain ⟨a1, a2, a3, a4, a5⟩ := h1
  obtain ⟨b1, b2, b3, b4, b5⟩ := h2
  exact ⟨b1.trans a1, b2.trans a2, b3.trans a3, b4.trans a4, b5.trans a5⟩

theorem File.SameContent.same_readPage (f : File) (p : Int) :
    f.SameContent (BufMgr.readPage f p).2 := ⟨by simp, by simp, by simp, by simp, by simp⟩

theorem File.SameContent.same_unPinPage (f : File) (p : Int) (d : Bool) :
    f.SameContent (BufMgr.unPinPage f p d).2 := ⟨by simp, by simp, by simp, by simp, by simp⟩

theorem ChainFacts.facts_congr {chain : List Int} {f g : File} (h : ChainFacts chain f)
    (hs : f.SameContent g) : ChainFacts chain g := by
  intro q hq
  rw [hs.1, hs.2.1]
  exact h q hq

theorem BufMgr.readPage_pinCnt (f : File) (p : Int) (h : f.valid p = true) :
    0 < (BufMgr.readPage f p).2.pinCnt p := by
  unfold BufMgr.readPage
  simp [h]

theorem HeapFileScan.scanEnter_ok {firstLoop : Bool} {s : State} {cp : Int} {rec : Record}
    {s1 : State} {t : RID} {rec1 : Record}
    (h : HeapFileScan.scanEnter firstLoop s cp rec = .ok (s1, t, rec1)) :
    s1 = { s with h := { s.h with curRec := t } } ∧
    (firstLoop = true → t = s.h.curRec) ∧
    (firstLoop = false → t.pageNo = (s.f.pages cp).curPage) := by
  unfold HeapFileScan.scanEnter at h
  split at h
  · rename_i hfl
    simp only [Except.ok.injEq, Prod.mk.injEq] at h
    obtain ⟨h1, h2, -⟩ := h
    subst h1 h2
    exact ⟨rfl, fun _ => rfl, fun hf => by simp [hfl] at hf⟩
  · rename_i hfl
    split at h
    · cases h
    · rename_i tmpRid hfirst
      obtain ⟨hp, -, -⟩ := Page.firstRecord_ok hfirst
      dsimp only at h
      split at h
      · cases h
      · simp only [Except.ok.injEq, Prod.mk.injEq] at h
        obtain ⟨h1, h2, -⟩ := h
        subst h1 h2
        exact ⟨rfl, fun hf => absurd hf hfl, fun _ => hp⟩

theorem HeapFileScan.scanEnter_error {firstLoop : Bool} {s : State} {cp : Int} {rec : Record}
    {st : Status} {ro : Option RID} {s1 : State}
    (h : HeapFileScan.scanEnter firstLoop s cp rec = .error (st, ro, s1)) :
    firstLoop = false ∧
    ((st ≠ Status.OK ∧ ro = none ∧ s1 = s) ∨
      ∃ c : RID, st = Status.OK ∧ ro = some c ∧ s1 = { s with h := { s.h with curRec := c } } ∧
        c.pageNo = (s.f.pages cp).curPage ∧
        ∃ recd, (s.f.pages cp).getRecord c = .ok recd ∧
          HeapFileScan.matchRec { s.h with curRec := c } recd = true) := by
  unfold HeapFileScan.scanEnter at h
  split at h
  · cases h
  · rename_i hfl
    have hfl' : firstLoop = false := by simpa using hfl
    split at h
    · rename_i st0 hfirst
      simp only [Except.error.injEq, Prod.mk.injEq] at h
      obtain ⟨h1, h2, h3⟩ := h
      subst h1 h2 h3
      refine ⟨hfl', Or.inl ⟨?_, rfl, rfl⟩⟩
      unfold Page.firstRecord at hfirst
      split at hfirst
      · cases hfirst
      · simp only [Except.error.injEq] at hfirst
        subst hfirst
        simp
    · rename_i tmpRid hfirst
      obtain ⟨hp, -, recd, hget⟩ := Page.firstRecord_ok hfirst
      have hfetch : HeapFileScan.fetch { s with h := { s.h with curRec := tmpRid } } cp rec
          = recd := HeapFileScan.fetch_ok rec hget
      dsimp only at h
      rw [hfetch] at h
      split at h
      · rename_i hm
        simp only [Except.error.injEq, Prod.mk.injEq] at h
        obtain ⟨h1, h2, h3⟩ := h
        subst h1 h2 h3
        exact ⟨hfl', Or.inr ⟨tmpRid, rfl, rfl, rfl, hp, recd, hget, hm⟩⟩
      · cases h

theorem indexOf_inj_of_mem {l : List Int} {a b : Int} (ha : a ∈ l)
    (h : l.indexOf a = l.indexOf b) : a = b := by
  have hlt : l.indexOf a < l.length := List.indexOf_lt_length.mpr ha
  have hb : b ∈ l := List.indexOf_lt_length.mp (by omega)
  have hlt2 : l.indexOf b < l.length := List.indexOf_lt_length.mpr hb
  have h1 : l.get ⟨l.indexOf a, hlt⟩ = a := List.indexOf_get hlt
  have h2 : l.get ⟨l.indexOf b, hlt2⟩ = b := List.indexOf_get hlt2
  rw [← h1, ← h2]
  congr 2

theorem HeapFileScan.scanLoop_spec (chain : List Int) :
    ∀ (fuel : Nat) (firstLoop : Bool) (s : State) (rec : Record) (st : Status)
      (ro : Option RID) (s' : State),
    ChainFacts chain s.f → s.h.curPage = some s.h.curPageNo → s.h.curPageNo ∈ chain →
    HeapFileScan.scanLoop fuel firstLoop s rec = some (st, ro, s') →
    ScanPost chain firstLoop s st ro s' := by
  intro fuel
  induction fuel with
  | zero =>
      intro firstLoop s rec st ro s' _ _ _ h
      simp [HeapFileScan.scanLoop] at h
  | succ n ih =>
      intro firstLoop s rec st ro s' hcf hcur hmem h
      obtain ⟨hval, hself, hnext⟩ := hcf _ hmem
      unfold HeapFileScan.scanLoop at h
      rw [hcur] at h
      dsimp only at h
      cases he : HeapFileScan.scanEnter firstLoop s s.h.curPageNo rec with
      | error r =>
          rw [he] at h
          obtain ⟨st1, ro1, s1⟩ := r
          simp only [Option.some.injEq, Prod.mk.injEq] at h
          obtain ⟨h1, h2, h3⟩ := h
          subst h1 h2 h3
          obtain ⟨hfl, hcase⟩ := HeapFileScan.scanEnter_error he
          rcases hcase with ⟨hst, hro, hs1⟩ | ⟨c, hst, hro, hs1, hcp, recd, hget, hm⟩
          · subst hro hs1
            exact ⟨File.SameContent.refl _, rfl, hcur, hmem, le_refl _, Or.inl rfl,
              fun h0 => absurd h0 hst, fun _ => rfl⟩
          · subst hst hro hs1
            rw [hself] at hcp
            refine ⟨File.SameContent.refl _, rfl, hcur, hmem, le_refl _, ?_, ?_, ?_⟩
            · right
              dsimp only
              rw [hcp]
              exact ⟨hmem, le_refl _, le_refl _, fun h0 => by simp [hfl] at h0⟩
            · intro _
              dsimp only
              refine ⟨rfl, hcp, ⟨recd, hget, hm⟩, fun h0 => by simp [hfl] at h0, ?_⟩
              intro hpin
              rcases hpin with hpin | hpin
              · exact hpin
              · exact absurd rfl hpin
            · intro h0; exact absurd rfl h0
      | ok r =>
          obtain ⟨s1, t, rec1⟩ := r
          rw [he] at h
          dsimp only at h
          obtain ⟨hs1, hfl1, hfl2⟩ := HeapFileScan.scanEnter_ok he
          subst hs1
          dsimp only at h
          cases hp : HeapFileScan.scanPage s.h.curPageNo
              ((s.f.pages s.h.curPageNo).slots.length + 1)
              { s with h := { s.h with curRec := t } } t rec1 with
          | none => rw [hp] at h; cases h
          | some r2 =>
              obtain ⟨res, s2, rec2⟩ := r2
              rw [hp] at h
              obtain ⟨c, hs2, hmono2, hres2⟩ := HeapFileScan.scanPage_spec _ _ _ _ _ _ _ _ hp
              subst hs2
              dsimp only at hmono2 hres2
              rw [hself] at hmono2 hres2
              -- the cursor record after the page: unchanged, or on this page
              have hc : c = s.h.curRec ∨ (c.pageNo = s.h.curPageNo ∧
                  (firstLoop = true → s.h.curRec.slotNo < c.slotNo)) := by
                rcases hmono2 with e | ⟨e1, e2⟩
                · subst e
                  cases firstLoop with
                  | true => left; exact hfl1 rfl
                  | false =>
                      right
                      refine ⟨?_, fun h0 => by cases h0⟩
                      rw [hfl2 rfl, hself]
                · right
                  refine ⟨e1, fun h0 => ?_⟩
                  rw [← hfl1 h0]; exact e2
              cases res with
              | some rid =>
                  dsimp only at h
                  simp only [Option.some.injEq, Prod.mk.injEq] at h
                  obtain ⟨h1, h2, h3⟩ := h
                  subst h1 h2 h3
                  obtain ⟨a1, a2, a3, recd, a4, a5⟩ := hres2 rid rfl
                  subst a1
                  have hslot : firstLoop = true → s.h.curRec.slotNo < c.slotNo := by
                    intro h0; rw [← hfl1 h0]; exact a3
                  refine ⟨File.SameContent.refl _, rfl, hcur, hmem, le_refl _, ?_, ?_, ?_⟩
                  · right
                    dsimp only
                    rw [a2]
                    exact ⟨hmem, le_refl _, le_refl _, fun h0 _ => hslot h0⟩
                  · intro _
                    dsimp only
                    refine ⟨rfl, a2, ⟨recd, a4, a5⟩, fun h0 _ => hslot h0, ?_⟩
                    intro hpin
                    rcases hpin with hpin | hpin
                    · exact hpin
                    · exact absurd rfl hpin
                  · intro h0; exact absurd rfl h0
              | none =>
                  dsimp only at h
                  simp only [Page.getNextPage, ne_eq, not_true_eq_false, if_false] at h
                  split at h
                  · -- the unpin failed
                    rename_i hu
                    simp only [Option.some.injEq, Prod.mk.injEq] at h
                    obtain ⟨h1, h2, h3⟩ := h
                    subst h1 h2 h3
                    refine ⟨File.SameContent.same_unPinPage _ _ _, rfl, hcur, hmem, le_refl _, ?_,
                      fun h0 => absurd h0 hu, fun _ => rfl⟩
                    rcases hc with e | ⟨e1, e2⟩
                    · left; exact e
                    · right
                      dsimp only
                      rw [e1]
                      exact ⟨hmem, le_refl _, le_refl _, fun h0 _ => e2 h0⟩
                  · split at h
                    · -- end of the chain
                      simp only [Option.some.injEq, Prod.mk.injEq] at h
                      obtain ⟨h1, h2, h3⟩ := h
                      subst h1 h2 h3
                      refine ⟨File.SameContent.same_unPinPage _ _ _, rfl, hcur, hmem, le_refl _, ?_,
                        fun h0 => (by cases h0), fun _ => rfl⟩
                      rcases hc with e | ⟨e1, e2⟩
                      · left; exact e
                      · right
                        dsimp only
                        rw [e1]
                        exact ⟨hmem, le_refl _, le_refl _, fun h0 _ => e2 h0⟩
                    · rename_i hu hn1
                      rcases hnext with hnext | ⟨hnm, hni⟩
                      · exact absurd hnext hn1
                      · obtain ⟨hval2, -, -⟩ := hcf _ hnm
                        have hrd : (BufMgr.readPage
                            (BufMgr.unPinPage s.f s.h.curPageNo s.h.curDirtyFlag).2
                            (s.f.pages s.h.curPageNo).nextPage).1 = Status.OK := by
                          simp [hval2]
                        rw [if_neg (by simp [hval2])] at h
                        have hsame : s.f.SameContent (BufMgr.readPage
                            (BufMgr.unPinPage s.f s.h.curPageNo s.h.curDirtyFlag).2
                            (s.f.pages s.h.curPageNo).nextPage).2 :=
                          (File.SameContent.same_unPinPage _ _ _).trans (File.SameContent.same_readPage _ _)
                        have post := ih _ _ _ _ _ _ (hcf.facts_congr hsame) rfl hnm h
                        have hpin : 0 < (BufMgr.readPage
                            (BufMgr.unPinPage s.f s.h.curPageNo s.h.curDirtyFlag).2
                            (s.f.pages s.h.curPageNo).nextPage).2.pinCnt
                              (s.f.pages s.h.curPageNo).nextPage :=
                          BufMgr.readPage_pinCnt _ _ (by simp [hval2])
                        have hadv := post.adv
                        dsimp only at hadv
                        refine ⟨hsame.trans post.same, post.frame, post.cur, post.mem, by omega,
                          ?_, ?_, post.err⟩
                        · rcases post.mono with e | ⟨e1, e2, e3, -⟩
                          · dsimp only at e
                            rcases hc with e' | ⟨e1', e2'⟩
                            · left; rw [e, e']
                            · right
                              rw [e, e1']
                              exact ⟨hmem, le_refl _, by omega, fun h0 _ => e2' h0⟩
                          · right
                            dsimp only at e2
                            refine ⟨e1, by omega, e3, fun _ h1 => ?_⟩
                            rw [h1] at e2
                            omega
                        · intro h0
                          obtain ⟨b1, b2, b3, -, b5⟩ := post.ok h0
                          refine ⟨b1, b2, b3, fun _ h1 => ?_, fun _ => b5 (Or.inl hpin)⟩
                          rw [h1] at hadv
                          omega

/-! ### The page chain -/

theorem File.isChain_cons {f : File} {p q : Int} {rest : List Int}
    (h : f.isChain p (q :: rest) = true) :
    p = q ∧ q ≠ -1 ∧ f.valid q = true ∧ (f.pages q).curPage = q ∧
      f.isChain (f.pages q).nextPage rest = true := by
  simpa [File.isChain] using h

theorem File.isChain_facts (f : File) : ∀ (chain : List Int) (p : Int),
    f.isChain p chain = true → chain.Nodup → ChainFacts chain f := by
  intro chain
  induction chain with
  | nil => intro p _ _ q hq; cases hq
  | cons q rest ih =>
      intro p h hnd
      obtain ⟨-, -, hv, hs, hrest⟩ := File.isChain_cons h
      have hq : q ∉ rest := (List.nodup_cons.mp hnd).1
      have hfacts := ih _ hrest (List.nodup_cons.mp hnd).2
      intro x hx
      rcases List.mem_cons.mp hx with hx | hx
      · subst hx
        refine ⟨hv, hs, ?_⟩
        cases rest with
        | nil =>
            left
            simpa [File.isChain] using hrest
        | cons q1 rest1 =>
            right
            obtain ⟨e, -, -, -, -⟩ := File.isChain_cons hrest
            rw [e]
            have hne : x ≠ q1 := fun h0 => hq (h0 ▸ List.mem_cons_self _ _)
            refine ⟨List.mem_cons_of_mem _ (List.mem_cons_self _ _), ?_⟩
            rw [List.indexOf_cons_ne _ hne, List.indexOf_cons_self, List.indexOf_cons_self]
      · obtain ⟨a1, a2, a3⟩ := hfacts x hx
        have hne : q ≠ x := fun h0 => hq (h0 ▸ hx)
        refine ⟨a1, a2, ?_⟩
        rcases a3 with a3 | ⟨a3, a4⟩
        · left; exact a3
        · right
          have hne2 : q ≠ (f.pages x).nextPage := fun h0 => hq (h0 ▸ a3)
          refine ⟨List.mem_cons_of_mem _ a3, ?_⟩
          rw [List.indexOf_cons_ne _ hne2, List.indexOf_cons_ne _ hne, a4]

theorem File.isChain_congr {f g : File} (hs : f.SameContent g) :
    ∀ (chain : List Int) (p : Int), g.isChain p chain = f.isChain p chain := by
  intro chain
  induction chain with
  | nil => intro p; rfl
  | cons q rest ih =>
      intro p
      simp only [File.isChain, hs.1, hs.2.1, ih]

/-! ### Scan order -/

theorem RID.before_of_le_of_before {chain : List Int} {a b c : RID}
    (hab : a = b ∨ RID.before chain a b) (hbc : RID.before chain b c) :
    RID.before chain a c := by
  rcases hab with hab | hab
  · rw [hab]; exact hbc
  · unfold RID.before at *
    rcases hab with h1 | ⟨h1, h2⟩ <;> rcases hbc with h3 | ⟨h3, h4⟩
    · left; omega
    · left; rw [← h3]; exact h1
    · left; rw [h1]; exact h3
    · right; exact ⟨h1.trans h3, by omega⟩

theorem RID.le_trans {chain : List Int} {a b c : RID}
    (hab : a = b ∨ RID.before chain a b) (hbc : b = c ∨ RID.before chain b c) :
    a = c ∨ RID.before chain a c := by
  rcases hbc with hbc | hbc
  · rw [← hbc]; exact hab
  · right; exact RID.before_of_le_of_before hab hbc

/-! ### One call of scanNext -/

theorem File.isChain_head {f : File} {p : Int} {chain : List Int}
    (h : f.isChain p chain = true) (hp : ¬ p < 0) :
    p ∈ chain ∧ f.valid p = true ∧ (f.pages p).curPage = p := by
  cases chain with
  | nil =>
      simp only [File.isChain, beq_iff_eq] at h
      rw [h] at hp
      exact absurd (by decide : (-1 : Int) < 0) hp
  | cons q rest =>
      obtain ⟨e, -, hv, hself, -⟩ := File.isChain_cons h
      subst e
      exact ⟨List.mem_cons_self _ _, hv, hself⟩

theorem ScanInv.inv_congr {chain : List Int} {s s' : State} (h : ScanInv chain s)
    (hs : s.f.SameContent s'.f)
    (hc : s'.h.curPage = none ∨ (s'.h.curPage = some s'.h.curPageNo ∧ s'.h.curPageNo ∈ chain)) :
    ScanInv chain s' := by
  refine ⟨?_, h.nodup, hc⟩
  rw [File.isChain_congr hs, hs.2.2.1]
  exact h.isChain

theorem ScanPost.toNext {chain : List Int} {s : State} {st : Status} {ro : Option RID}
    {s' : State} (hinv : ScanInv chain s) (hcur : s.h.curPage = some s.h.curPageNo)
    (post : ScanPost chain true s st ro s') : NextPost chain s st ro s' := by
  have hstep : ∀ (x : RID), x.pageNo ∈ chain →
      chain.indexOf s.h.curPageNo ≤ chain.indexOf x.pageNo →
      (x.pageNo = s.h.curPageNo → s.h.curRec.slotNo < x.slotNo) →
      Trail chain s → RID.before chain s.h.curRec x := by
    intro x hx h1 h2 ⟨_, _, t3, t4⟩
    unfold RID.before
    by_cases hlt : chain.indexOf s.h.curRec.pageNo < chain.indexOf x.pageNo
    · left; exact hlt
    · right
      have e1 : chain.indexOf s.h.curRec.pageNo = chain.indexOf x.pageNo := by omega
      have e2 : s.h.curRec.pageNo = x.pageNo := indexOf_inj_of_mem t3 e1
      have e3 : chain.indexOf x.pageNo = chain.indexOf s.h.curPageNo := by omega
      exact ⟨e2, h2 (indexOf_inj_of_mem hx e3)⟩
  refine ⟨hinv.inv_congr post.same (Or.inr ⟨post.cur, post.mem⟩), post.same, ?_, post.err, ?_⟩
  · intro h0
    obtain ⟨b1, b2, b3, -, b5⟩ := post.ok h0
    refine ⟨b1, ⟨post.cur, post.mem, by rw [b2]; exact post.mem, by rw [b2]⟩, b2, b3, ?_⟩
    intro hp
    exact b5 (Or.inl (hp _ hcur))
  · intro ht
    have ht' := ht
    obtain ⟨_, _, t3, t4⟩ := ht'
    have hadv := post.adv
    refine ⟨?_, ?_, ?_⟩
    · refine ⟨post.cur, post.mem, ?_, ?_⟩
      · rcases post.mono with e | ⟨e1, -, -, -⟩
        · rw [e]; exact t3
        · exact e1
      · rcases post.mono with e | ⟨-, -, e3, -⟩
        · rw [e]; omega
        · exact e3
    · rcases post.mono with e | ⟨e1, e2, -, e4⟩
      · left; exact e.symm
      · right; exact hstep _ e1 e2 (e4 rfl) ht
    · intro h0
      obtain ⟨-, b2, -, b4, -⟩ := post.ok h0
      refine hstep _ (by rw [b2]; exact post.mem) (by rw [b2]; exact hadv) ?_ ht
      intro h1
      exact b4 rfl (by rw [← b2]; exact h1)

theorem HeapFileScan.scanNext_spec (chain : List Int) (fuel : Nat) (l : Locals) (s : State)
    (st : Status) (ro : Option RID) (s' : State) (hinv : ScanInv chain s)
    (h : HeapFileScan.scanNext fuel l s = some (st, ro, s')) : NextPost chain s st ro s' := by
  have hcf : ChainFacts chain s.f := File.isChain_facts _ _ _ hinv.isChain hinv.nodup
  unfold HeapFileScan.scanNext at h
  split at h
  · -- the scan had reached the end before
    simp only [Option.some.injEq, Prod.mk.injEq] at h
    obtain ⟨h1, h2, h3⟩ := h
    subst h1 h2 h3
    exact ⟨hinv, File.SameContent.refl _, fun h0 => (by cases h0), fun _ => rfl,
      fun ht => ⟨ht, Or.inl rfl, fun h0 => (by cases h0)⟩⟩
  · rename_i hneg
    rcases hinv.cursor with hnone | ⟨hcur, hmem⟩
    · -- no page is current: start at the first page
      rw [hnone] at h
      dsimp only at h
      have hnotrail : ¬ Trail chain s := fun ht => by
        have h1 := ht.1
        rw [hnone] at h1
        cases h1
      split at h
      · simp only [Option.some.injEq, Prod.mk.injEq] at h
        obtain ⟨h1, h2, h3⟩ := h
        subst h1 h2 h3
        exact ⟨hinv.inv_congr (File.SameContent.refl _) (Or.inl hnone), File.SameContent.refl _,
          fun h0 => (by cases h0), fun _ => rfl, fun ht => absurd ht hnotrail⟩
      · rename_i hfp
        -- the first page is the head of the chain
        obtain ⟨hq, hv, hself⟩ := File.isChain_head hinv.isChain hfp
        generalize s.f.hdr.firstPage = q at h hq hv hself
        rw [if_neg (by simp [hv])] at h
        have hpin : 0 < (BufMgr.readPage s.f q).2.pinCnt q := BufMgr.readPage_pinCnt _ _ hv
        have hsame : s.f.SameContent (BufMgr.readPage s.f q).2 :=
          File.SameContent.same_readPage _ _
        rw [BufMgr.readPage_pages] at h
        split at h
        · -- the first page has no record
          have hu : (BufMgr.unPinPage (BufMgr.readPage s.f q).2 q false).1 = Status.OK := by
            unfold BufMgr.unPinPage
            simp [hpin]
          rw [if_neg (by simp [hu])] at h
          simp only [Option.some.injEq, Prod.mk.injEq] at h
          obtain ⟨h1, h2, h3⟩ := h
          subst h1 h2 h3
          exact ⟨hinv.inv_congr (hsame.trans (File.SameContent.same_unPinPage _ _ _)) (Or.inl rfl),
            hsame.trans (File.SameContent.same_unPinPage _ _ _),
            fun h0 => (by cases h0), fun _ => rfl, fun ht => absurd ht hnotrail⟩
        · rename_i tmpRid hfirst
          obtain ⟨hp, -, recd, hget⟩ := Page.firstRecord_ok hfirst
          rw [hself] at hp
          have hfetch : HeapFileScan.fetch
              { h := { s.h with curPageNo := q, curPage := some q, curDirtyFlag := false,
                                curRec := tmpRid },
                f := (BufMgr.readPage s.f q).2 } q l.record = recd :=
            HeapFileScan.fetch_ok _ (by simpa using hget)
          rw [hfetch] at h
          split at h
          · rename_i hm
            simp only [Option.some.injEq, Prod.mk.injEq] at h
            obtain ⟨h1, h2, h3⟩ := h
            subst h1 h2 h3
            refine ⟨hinv.inv_congr hsame (Or.inr ⟨rfl, hq⟩), hsame, ?_, fun h0 => absurd rfl h0,
              fun ht => absurd ht hnotrail⟩
            intro _
            refine ⟨rfl, ⟨rfl, hq, by rw [hp]; exact hq, by rw [hp]⟩, hp,
              ⟨recd, by simpa using hget, hm⟩, fun _ => hpin⟩
          · have hinv2 : ScanInv chain
                { h := { s.h with curPageNo := q, curPage := some q, curDirtyFlag := false,
                                  curRec := tmpRid },
                  f := (BufMgr.readPage s.f q).2 } :=
              hinv.inv_congr hsame (Or.inr ⟨rfl, hq⟩)
            have post := HeapFileScan.scanLoop_spec chain _ _ _ _ _ _ _
              (hcf.facts_congr hsame) rfl hq h
            have np := ScanPost.toNext hinv2 rfl post
            refine ⟨np.inv, hsame.trans np.same, ?_, np.err, fun ht => absurd ht hnotrail⟩
            intro h0
            obtain ⟨b1, b2, b3, b4, b5⟩ := np.ok h0
            refine ⟨b1, b2, b3, b4, fun _ => b5 ?_⟩
            intro x hx
            simp only [Option.some.injEq] at hx
            subst hx
            exact hpin
    · rw [hcur] at h
      dsimp only at h
      exact ScanPost.toNext hinv hcur
        (HeapFileScan.scanLoop_spec chain _ _ _ _ _ _ _ hcf hcur hmem h)

/-! ### The loops of scanNext return -/

theorem Page.firstOccupied_lt {l : List (Option Record)} {base i : Nat}
    (h : Page.firstOccupied l base = some i) : i < base + l.length := by
  induction l generalizing base with
  | nil => simp [Page.firstOccupied] at h
  | cons x rest ih =>
      cases x with
      | some r =>
          simp only [Page.firstOccupied, Option.some.injEq] at h
          subst h
          simp
      | none =>
          simp only [Page.firstOccupied] at h
          have := ih h
          simp only [List.length_cons]
          omega

theorem Page.nextRecord_lt {p : Page} {t r : RID} (h : p.nextRecord t = .ok r) :
    (r.slotNo + 1).toNat ≤ p.slots.length ∧ (t.slotNo + 1).toNat < (r.slotNo + 1).toNat := by
  unfold Page.nextRecord at h
  simp only at h
  split at h
  · rename_i i hi
    simp only [Except.ok.injEq] at h
    subst h
    have h1 := Page.firstOccupied_lt hi
    obtain ⟨h2, -⟩ := Page.firstOccupied_some hi
    simp only [List.length_drop] at h1
    simp only
    omega
  · cases h

/-- The inner loop returns when its fuel exceeds the number of slots behind the
start position. -/
theorem HeapFileScan.scanPage_returns (cp : Int) : ∀ (fuel : Nat) (s : State) (tmpRid : RID)
    (rec : Record),
    (s.f.pages cp).slots.length - (tmpRid.slotNo + 1).toNat < fuel →
    HeapFileScan.scanPage cp fuel s tmpRid rec ≠ none := by
  intro fuel
  induction fuel with
  | zero => intro s tmpRid rec h; omega
  | succ n ih =>
      intro s tmpRid rec h
      unfold HeapFileScan.scanPage
      split
      · rename_i nextRid hnext
        obtain ⟨h1, h2⟩ := Page.nextRecord_lt hnext
        dsimp only
        split
        · simp
        · apply ih
          dsimp only
          omega
      · simp

/-- The outer loop returns when its fuel exceeds the number of chain pages from the
cursor page on. -/
theorem HeapFileScan.scanLoop_returns (chain : List Int) :
    ∀ (fuel : Nat) (firstLoop : Bool) (s : State) (rec : Record),
    ChainFacts chain s.f → s.h.curPage = some s.h.curPageNo → s.h.curPageNo ∈ chain →
    chain.length - chain.indexOf s.h.curPageNo ≤ fuel →
    HeapFileScan.scanLoop fuel firstLoop s rec ≠ none := by
  intro fuel
  induction fuel with
  | zero =>
      intro firstLoop s rec _ _ hmem h
      have := List.indexOf_lt_length.mpr hmem
      omega
  | succ n ih =>
      intro firstLoop s rec hcf hcur hmem hfuel
      obtain ⟨hval, hself, hnext⟩ := hcf _ hmem
      unfold HeapFileScan.scanLoop
      rw [hcur]
      dsimp only
      cases he : HeapFileScan.scanEnter firstLoop s s.h.curPageNo rec with
      | error r => simp
      | ok r =>
          obtain ⟨s1, t, rec1⟩ := r
          dsimp only
          obtain ⟨hs1, -, -⟩ := HeapFileScan.scanEnter_ok he
          subst hs1
          dsimp only
          cases hp : HeapFileScan.scanPage s.h.curPageNo
              ((s.f.pages s.h.curPageNo).slots.length + 1)
              { s with h := { s.h with curRec := t } } t rec1 with
          | none =>
              exact absurd hp (HeapFileScan.scanPage_returns _ _ _ _ _ (by dsimp only; omega))
          | some r2 =>
              obtain ⟨res, s2, rec2⟩ := r2
              obtain ⟨c, hs2, -, -⟩ := HeapFileScan.scanPage_spec _ _ _ _ _ _ _ _ hp
              subst hs2
              cases res with
              | some rid => simp
              | none =>
                  dsimp only
                  simp only [Page.getNextPage, ne_eq, not_true_eq_false, if_false]
                  split
                  · simp
                  · split
                    · simp
                    · rename_i hu hn1
                      rcases hnext with hnext | ⟨hnm, hni⟩
                      · exact absurd hnext hn1
                      · obtain ⟨hval2, -, -⟩ := hcf _ hnm
                        rw [if_neg (by simp [hval2])]
                        have hsame : s.f.SameContent (BufMgr.readPage
                            (BufMgr.unPinPage s.f s.h.curPageNo s.h.curDirtyFlag).2
                            (s.f.pages s.h.curPageNo).nextPage).2 :=
                          (File.SameContent.same_unPinPage _ _ _).trans
                            (File.SameContent.same_readPage _ _)
                        apply ih _ _ _ (hcf.facts_congr hsame) rfl hnm
                        dsimp only
                        omega

/-- On a well-formed chain `scanNext` returns when its fuel is at least the length of
the chain. -/
theorem HeapFileScan.scanNext_returns (chain : List Int) (fuel : Nat) (l : Locals) (s : State)
    (hinv : ScanInv chain s) (hfuel : chain.length ≤ fuel) :
    HeapFileScan.scanNext fuel l s ≠ none := by
  have hcf : ChainFacts chain s.f := File.isChain_facts _ _ _ hinv.isChain hinv.nodup
  unfold HeapFileScan.scanNext
  split
  · simp
  · rcases hinv.cursor with hnone | ⟨hcur, hmem⟩
    · rw [hnone]
      dsimp only
      split
      · simp
      · rename_i hfp
        obtain ⟨hq, hv, hself⟩ := File.isChain_head hinv.isChain hfp
        rw [if_neg (by simp [hv])]
        split
        · split <;> simp
        · split
          · simp
          · apply HeapFileScan.scanLoop_returns chain _ _ _ _
              (hcf.facts_congr (File.SameContent.same_readPage _ _)) rfl hq
            omega
    · rw [hcur]
      dsimp only
      exact HeapFileScan.scanLoop_returns chain _ _ _ _ hcf hcur hmem (by omega)

/-! ### Soundness of the scan -/

theorem HeapFileScan.scanCalls_spec (chain : List Int) :
    ∀ (calls : List (Nat × Locals)) (s0 : State) (out : List (Status × Option RID)) (s : State),
    ScanInv chain s0 → HeapFileScan.scanCalls calls s0 = some (out, s) →
    ScanInv chain s ∧
    (Trail chain s0 →
      Trail chain s ∧ (s0.h.curRec = s.h.curRec ∨ RID.before chain s0.h.curRec s.h.curRec)) ∧
    (∀ rp, (Status.OK, some rp) ∈ out →
      Trail chain s ∧ (rp = s.h.curRec ∨ RID.before chain rp s.h.curRec)) := by
  intro calls
  induction calls with
  | nil =>
      intro s0 out s hinv h
      simp only [HeapFileScan.scanCalls, Option.some.injEq, Prod.mk.injEq] at h
      obtain ⟨h1, h2⟩ := h
      subst h1 h2
      exact ⟨hinv, fun ht => ⟨ht, Or.inl rfl⟩, fun rp hrp => by cases hrp⟩
  | cons c rest ih =>
      intro s0 out s hinv h
      unfold HeapFileScan.scanCalls at h
      cases h1 : HeapFileScan.scanNext c.1 c.2 s0 with
      | none => rw [h1] at h; cases h
      | some r =>
          obtain ⟨st, ro, s1⟩ := r
          rw [h1] at h
          dsimp only at h
          cases h2 : HeapFileScan.scanCalls rest s1 with
          | none => rw [h2] at h; cases h
          | some o =>
              obtain ⟨out1, s2⟩ := o
              rw [h2] at h
              simp only [Option.some.injEq, Prod.mk.injEq] at h
              obtain ⟨e1, e2⟩ := h
              subst e1 e2
              have np := HeapFileScan.scanNext_spec chain _ _ _ _ _ _ hinv h1
              obtain ⟨i1, i2, i3⟩ := ih _ _ _ np.inv h2
              refine ⟨i1, ?_, ?_⟩
              · intro ht
                obtain ⟨t1, t2, -⟩ := np.trail ht
                obtain ⟨u1, u2⟩ := i2 t1
                exact ⟨u1, RID.le_trans t2 u2⟩
              · intro rp hrp
                rcases List.mem_cons.mp hrp with hrp | hrp
                · simp only [Prod.mk.injEq] at hrp
                  obtain ⟨e1, e2⟩ := hrp
                  obtain ⟨b1, b2, -⟩ := np.ok e1.symm
                  rw [b1] at e2
                  simp only [Option.some.injEq] at e2
                  rw [e2]
                  exact i2 b2
                · exact i3 rp hrp

/-! ### Soundness of the scan with other calls in between -/

@[simp] theorem BufMgr.allocPage_hdr (f : File) : (BufMgr.allocPage f).2.2.hdr = f.hdr := by
  unfold BufMgr.allocPage; split <;> rfl

theorem InsertFileScan.insertOverflow_recCnt (PAGESIZE DPFIXED : Nat) (s : State) (cp : Int)
    (rec : Record) :
    (InsertFileScan.insertOverflow PAGESIZE DPFIXED s cp rec).2.2.f.hdr.recCnt =
      (if (InsertFileScan.insertOverflow PAGESIZE DPFIXED s cp rec).1 = Status.OK
        then wrap32 (s.f.hdr.recCnt + 1) else s.f.hdr.recCnt) := by
  unfold InsertFileScan.insertOverflow
  simp only [Page.setNextPage]
  split
  · rename_i ha
    simp [ha]
  · simp only [ne_eq, not_true_eq_false, if_false]
    split
    · simp
    · rename_i st hins
      rw [Page.insertRecord_error hins]
      simp

theorem InsertFileScan.insertCurrent_recCnt (PAGESIZE DPFIXED : Nat) (s : State) (cp : Int)
    (rec : Record) :
    (InsertFileScan.insertCurrent PAGESIZE DPFIXED s cp rec).2.2.f.hdr.recCnt =
      (if (InsertFileScan.insertCurrent PAGESIZE DPFIXED s cp rec).1 = Status.OK
        then wrap32 (s.f.hdr.recCnt + 1) else s.f.hdr.recCnt) := by
  unfold InsertFileScan.insertCurrent
  split
  · simp
  · exact InsertFileScan.insertOverflow_recCnt _ _ _ _ _

theorem InsertFileScan.insertRecord_recCnt (PAGESIZE DPFIXED : Nat) (s : State) (rec : Record) :
    (InsertFileScan.insertRecord PAGESIZE DPFIXED s rec).2.2.f.hdr.recCnt =
      (if (InsertFileScan.insertRecord PAGESIZE DPFIXED s rec).1 = Status.OK
        then wrap32 (s.f.hdr.recCnt + 1) else s.f.hdr.recCnt) := by
  unfold InsertFileScan.insertRecord
  split
  · simp
  · split
    · dsimp only
      split
      · rename_i hr
        simp [hr]
      · rw [InsertFileScan.insertCurrent_recCnt]
        simp
    · exact InsertFileScan.insertCurrent_recCnt _ _ _ _ _

theorem HeapFile.getRecord_hdr (s : State) (rid : RID) :
    (HeapFile.getRecord s rid).2.2.f.hdr = s.f.hdr := by
  unfold HeapFile.getRecord
  split
  · dsimp only
    split
    · simp
    · split <;> simp
  · split
    · split <;> rfl
    · dsimp only
      split
      · simp
      · split
        · simp
        · split <;> simp

theorem HeapFileScan.startScan_hdr (s : State) (offset_ length_ : Int) (type_ : Datatype)
    (filter_ : Option (List Nat)) (op_ : Operator) :
    (HeapFileScan.startScan s offset_ length_ type_ filter_ op_).2.f.hdr = s.f.hdr := by
  unfold HeapFileScan.startScan
  split
  · rfl
  · split <;> rfl

theorem HeapFileScan.endScan_hdr (s : State) : (HeapFileScan.endScan s).2.f.hdr = s.f.hdr := by
  unfold HeapFileScan.endScan
  split
  · simp
  · rfl

theorem HeapFileScan.resetScan_hdr (s : State) : (HeapFileScan.resetScan s).2.f.hdr = s.f.hdr := by
  unfold HeapFileScan.resetScan
  split
  · dsimp only
    have hu : (match s.h.curPage with
        | some _ => BufMgr.unPinPage s.f s.h.curPageNo s.h.curDirtyFlag
        | none => (Status.OK, s.f)).2.hdr = s.f.hdr := by
      split
      · simp
      · rfl
    split
    · exact hu
    · split
      · simp [hu]
      · simp [hu]
  · rfl

theorem HeapFileScan.scanLoop_hdr : ∀ (fuel : Nat) (firstLoop : Bool) (s : State) (rec : Record)
    (r : Status × Option RID × State),
    HeapFileScan.scanLoop fuel firstLoop s rec = some r → r.2.2.f.hdr = s.f.hdr := by
  intro fuel
  induction fuel with
  | zero => intro firstLoop s rec r h; simp [HeapFileScan.scanLoop] at h
  | succ n ih =>
      intro firstLoop s rec r h
      unfold HeapFileScan.scanLoop at h
      split at h
      · cases h
      · rename_i cp hcp
        cases he : HeapFileScan.scanEnter firstLoop s cp rec with
        | error e =>
            rw [he] at h
            obtain ⟨st1, ro1, s1⟩ := e
            simp only [Option.some.injEq] at h
            subst h
            obtain ⟨-, hcase⟩ := HeapFileScan.scanEnter_error he
            rcases hcase with ⟨-, -, hs1⟩ | ⟨c, -, -, hs1, -⟩
            · rw [hs1]
            · rw [hs1]
        | ok e =>
            obtain ⟨s1, t, rec1⟩ := e
            rw [he] at h
            dsimp only at h
            obtain ⟨hs1, -, -⟩ := HeapFileScan.scanEnter_ok he
            subst hs1
            dsimp only at h
            cases hp : HeapFileScan.scanPage cp ((s.f.pages cp).slots.length + 1)
                { s with h := { s.h with curRec := t } } t rec1 with
            | none => rw [hp] at h; cases h
            | some r2 =>
                obtain ⟨res, s2, rec2⟩ := r2
                rw [hp] at h
                obtain ⟨c, hs2, -, -⟩ := HeapFileScan.scanPage_spec _ _ _ _ _ _ _ _ hp
                subst hs2
                cases res with
                | some rid =>
                    dsimp only at h
                    simp only [Option.some.injEq] at h
                    subst h
                    rfl
                | none =>
                    dsimp only at h
                    simp only [Page.getNextPage, ne_eq, not_true_eq_false, if_false] at h
                    split at h
                    · simp only [Option.some.injEq] at h
                      subst h
                      simp
                    · split at h
                      · simp only [Option.some.injEq] at h
                        subst h
                        simp
                      · split at h
                        · simp only [Option.some.injEq] at h
                          subst h
                          simp
                        · rw [ih _ _ _ _ h]
                          simp

theorem HeapFileScan.scanNext_hdr (fuel : Nat) (l : Locals) (s : State)
    (r : Status × Option RID × State)
    (h : HeapFileScan.scanNext fuel l s = some r) : r.2.2.f.hdr = s.f.hdr := by
  unfold HeapFileScan.scanNext at h
  split at h
  · simp only [Option.some.injEq] at h
    subst h
    rfl
  · split at h
    · dsimp only at h
      split at h
      · simp only [Option.some.injEq] at h
        subst h
        rfl
      · split at h
        · simp only [Option.some.injEq] at h
          subst h
          simp
        · split at h
          · split at h
            · simp only [Option.some.injEq] at h
              subst h
              simp
            · simp only [Option.some.injEq] at h
              subst h
              simp
          · split at h
            · simp only [Option.some.injEq] at h
              subst h
              simp
            · rw [HeapFileScan.scanLoop_hdr _ _ _ _ _ h]
              simp
    · exact HeapFileScan.scanLoop_hdr _ _ _ _ _ h

theorem HeapFileScan.deleteRecord_recCnt (s : State) (r : Status × State)
    (h : HeapFileScan.deleteRecord s = some r) :
    r.2.f.hdr.recCnt = wrap32 (s.f.hdr.recCnt - 1) := by
  unfold HeapFileScan.deleteRecord at h
  split at h
  · cases h
  · simp only [Option.some.injEq] at h
    subst h
    rfl

theorem wrap32_idem (n : Int) : wrap32 (wrap32 n) = wrap32 n := by
  unfold wrap32; omega

theorem Session.call_recCnt (PAGESIZE DPFIXED : Nat) (x : Session) (c : Call)
    (r : Status × Session) (h : Session.call PAGESIZE DPFIXED x c = some r)
    (hx : wrap32 x.f.hdr.recCnt = x.f.hdr.recCnt) :
    r.2.f.hdr.recCnt = wrap32 (x.f.hdr.recCnt +
      (if c.isInsert = true ∧ r.1 = Status.OK then 1 else 0) -
      (if c.isDelete = true then 1 else 0)) := by
  cases c with
  | insertRecord rec =>
      simp only [Session.call, Option.some.injEq] at h
      subst h
      simp only [Session.withIns, Call.isInsert, Call.isDelete, true_and]
      rw [InsertFileScan.insertRecord_recCnt]
      split <;> simp [hx]
  | insGetRecord rid =>
      simp only [Session.call, Option.some.injEq] at h
      subst h
      simp [Session.withIns, Call.isInsert, Call.isDelete, HeapFile.getRecord_hdr, hx]
  | scanGetRecord rid =>
      simp only [Session.call, Option.some.injEq] at h
      subst h
      simp [Session.withScan, Call.isInsert, Call.isDelete, HeapFile.getRecord_hdr, hx]
  | startScan offset length type filter op =>
      simp only [Session.call, Option.some.injEq] at h
      subst h
      simp [Session.withScan, Call.isInsert, Call.isDelete, HeapFileScan.startScan_hdr, hx]
  | endScan =>
      simp only [Session.call, Option.some.injEq] at h
      subst h
      simp [Session.withScan, Call.isInsert, Call.isDelete, HeapFileScan.endScan_hdr, hx]
  | markScan =>
      simp only [Session.call, Option.some.injEq] at h
      subst h
      simp [Session.withScan, Call.isInsert, Call.isDelete, HeapFileScan.markScan, hx]
  | resetScan =>
      simp only [Session.call, Option.some.injEq] at h
      subst h
      simp [Session.withScan, Call.isInsert, Call.isDelete, HeapFileScan.resetScan_hdr, hx]
  | scanNext fuel l =>
      simp only [Session.call] at h
      split at h
      · rename_i r0 hr0
        simp only [Option.some.injEq] at h
        subst h
        simp [Session.withScan, Call.isInsert, Call.isDelete,
          HeapFileScan.scanNext_hdr _ _ _ _ hr0, hx]
      · cases h
  | deleteRecord =>
      simp only [Session.call] at h
      split at h
      · rename_i r0 hr0
        simp only [Option.some.injEq] at h
        subst h
        simp [Session.withScan, Call.isInsert, Call.isDelete,
          HeapFileScan.deleteRecord_recCnt _ _ hr0]
      · cases h
  | markDirty =>
      simp only [Session.call, Option.some.injEq] at h
      subst h
      simp [Session.withScan, Call.isInsert, Call.isDelete, HeapFileScan.markDirty, hx]

theorem Session.run_recCnt (PAGESIZE DPFIXED : Nat) :
    ∀ (calls : List Call) (x : Session) (sts : List Status) (x' : Session),
    Session.run PAGESIZE DPFIXED x calls = some (sts, x') →
    (∀ c st, (c, st) ∈ calls.zip sts → c.isInsert = true → st = Status.OK) →
    wrap32 x.f.hdr.recCnt = x.f.hdr.recCnt →
    x'.f.hdr.recCnt = wrap32 (x.f.hdr.recCnt + (calls.countP Call.isInsert : Nat) -
      (calls.countP Call.isDelete : Nat)) := by
  intro calls
  induction calls with
  | nil =>
      intro x sts x' h _ hx
      simp only [Session.run, Option.some.injEq, Prod.mk.injEq] at h
      rw [← h.2]
      simp [hx]
  | cons c rest ih =>
      intro x sts x' h hok hx
      unfold Session.run at h
      cases h1 : Session.call PAGESIZE DPFIXED x c with
      | none => rw [h1] at h; cases h
      | some r =>
          rw [h1] at h
          dsimp only at h
          cases h2 : Session.run PAGESIZE DPFIXED r.2 rest with
          | none => rw [h2] at h; cases h
          | some o =>
              rw [h2] at h
              simp only [Option.some.injEq, Prod.mk.injEq] at h
              obtain ⟨e1, e2⟩ := h
              subst e1 e2
              have hstep := Session.call_recCnt _ _ _ _ _ h1 hx
              have hr : wrap32 r.2.f.hdr.recCnt = r.2.f.hdr.recCnt := by
                rw [hstep, wrap32_idem]
              have hrest := ih r.2 o.1 o.2 h2 (fun c0 st0 hm => hok c0 st0 (by
                rw [List.zip_cons_cons]
                exact List.mem_cons_of_mem _ hm)) hr
              rw [hrest, hstep]
              have hins : c.isInsert = true → r.1 = Status.OK := fun hi =>
                hok c r.1 (by rw [List.zip_cons_cons]; exact List.mem_cons_self _ _) hi
              simp only [List.countP_cons]
              by_cases hi : c.isInsert = true
              · by_cases hd : c.isDelete = true
                · simp only [hi, hd, hins hi, and_self, if_true, Nat.cast_add, Nat.cast_one]
                  unfold wrap32; omega
                · simp only [hi, hd, hins hi, and_self, if_true, if_false, Nat.cast_add,
                    Nat.cast_one, Bool.false_eq_true, add_zero, Nat.cast_zero]
                  unfold wrap32; omega
              · by_cases hd : c.isDelete = true
                · simp only [hi, hd, false_and, if_true, if_false, Nat.cast_add,
                    Nat.cast_one, Bool.false_eq_true, add_zero, Nat.cast_zero]
                  unfold wrap32; omega
                · simp only [hi, hd, false_and, if_false, Nat.cast_add,
                    Bool.false_eq_true, add_zero, Nat.cast_zero]
                  unfold wrap32; omega

theorem HeapFile.openBody_hdr (raw : HeapFile) (f : File) :
    (HeapFile.openBody raw f).2.f.hdr = f.hdr := by
  unfold HeapFile.openBody
  dsimp only
  split
  · simp
  · split <;> simp

theorem Session.start_recCnt (rawIns rawScan : HeapFile) (f : File) :
    (Session.start rawIns rawScan f).f.hdr.recCnt = f.hdr.recCnt := by
  unfold Session.start
  simp [HeapFile.openBody_hdr]

theorem DB.put_files_same (db : DB) (name : String) (f : File) :
    (db.put name f).files name = some f := by
  simp [DB.put]

@[simp] theorem BufMgr.unPinPage_diskHdr (f : File) (p : Int) (d : Bool) :
    (BufMgr.unPinPage f p d).2.diskHdr = f.diskHdr := by
  unfold BufMgr.unPinPage; split <;> rfl

@[simp] theorem BufMgr.allocPage_diskHdr (f : File) :
    (BufMgr.allocPage f).2.2.diskHdr = f.diskHdr := by
  unfold BufMgr.allocPage; split <;> rfl

theorem File.writeBack_recCnt (f : File) (h : f.hdr.recCnt = 0 ∧ f.diskHdr.recCnt = 0) :
    f.writeBack.hdr.recCnt = 0 ∧ f.writeBack.diskHdr.recCnt = 0 := by
  unfold File.writeBack
  dsimp only
  split <;> simp [h.1, h.2]

theorem File.close_recCnt (f : File) (h : f.hdr.recCnt = 0 ∧ f.diskHdr.recCnt = 0) :
    (File.close f).2.hdr.recCnt = 0 := by
  have hw := File.writeBack_recCnt f h
  unfold File.close File.dropFrames
  dsimp only
  split
  · split
    · dsimp only
      split
      · exact hw.1
      · exact hw.2
    · exact h.1
  · exact h.1

theorem DB.createFile_diskHdr (db : DB) (name : String) (f0 : File)
    (hc : (db.createFile name).1 = Status.OK)
    (h : ((db.createFile name).2.openFile name).2.files name = some f0) :
    f0.diskHdr.recCnt = 0 := by
  unfold DB.createFile at hc h
  cases hn : db.files name with
  | some g => rw [hn] at hc; simp at hc
  | none =>
      rw [hn] at h
      simp only [DB.openFile, DB.put_files_same, Option.some.injEq] at h
      subst h
      rfl

theorem createHeapFile_recCnt (PAGESIZE DPFIXED : Nat) (db db1 : DB) (fileName : String)
    (f : File) (hc : createHeapFile PAGESIZE DPFIXED db fileName = (Status.OK, db1))
    (hf : db1.files fileName = some f) : f.hdr.recCnt = 0 := by
  unfold createHeapFile at hc
  dsimp only at hc
  split at hc
  · split at hc
    · rename_i h1
      simp only [Prod.mk.injEq] at hc
      exact absurd hc.1 h1
    · rename_i hcr
      split at hc
      · simp at hc
      · rename_i f0 hf0
        have hd := DB.createFile_diskHdr _ _ _ (not_not.mp hcr) hf0
        split at hc
        · rename_i h1
          simp only [Prod.mk.injEq] at hc
          exact absurd hc.1 h1
        · split at hc
          · rename_i h1
            simp only [Prod.mk.injEq] at hc
            exact absurd hc.1 h1
          · simp only [Prod.mk.injEq, true_and] at hc
            subst hc
            unfold DB.closeFile at hf
            rw [DB.put_files_same] at hf
            dsimp only at hf
            split at hf
            · rw [DB.put_files_same] at hf
              simp only [Option.some.injEq] at hf
              subst hf
              apply File.close_recCnt
              unfold BufMgr.flushFile
              dsimp only
              apply File.writeBack_recCnt
              constructor
              · simp
              · simp [hd]
            · rw [DB.put_files_same] at hf
              simp only [Option.some.injEq] at hf
              subst hf
              simp [BufMgr.flushFile, File.writeBack]
  · simp at hc

/-- Within one session: starting from a freshly created heap file, opened by an insert
handle and a scan handle that both stay open, after any sequence of calls on the two
handles in which every `insertRecord` and every `deleteRecord` returned `OK`,
`getRecCnt()` is the number of `insertRecord` calls minus the number of `deleteRecord`
calls, reduced to the range of `int`; it is that difference itself when the difference
is at most 2147483647. -/
theorem recCnt_within_session (PAGESIZE DPFIXED : Nat) (db db1 : DB)
    (fileName : String) (f : File) (rawIns rawScan : HeapFile) (calls : List Call)
    (sts : List Status) (x : Session)
    (hc : createHeapFile PAGESIZE DPFIXED db fileName = (Status.OK, db1))
    (hf : db1.files fileName = some f)
    (hrun : Session.run PAGESIZE DPFIXED (Session.start rawIns rawScan f) calls = some (sts, x))
    (hok : ∀ c st, (c, st) ∈ calls.zip sts → (c.isInsert = true ∨ c.isDelete = true) →
      st = Status.OK) :
    HeapFile.getRecCnt { h := x.scan, f := x.f } =
      wrap32 (((calls.countP Call.isInsert : Nat) : Int) -
        ((calls.countP Call.isDelete : Nat) : Int)) ∧
    HeapFile.getRecCnt { h := x.ins, f := x.f } = HeapFile.getRecCnt { h := x.scan, f := x.f } ∧
    (calls.countP Call.isDelete ≤ calls.countP Call.isInsert →
      calls.countP Call.isInsert - calls.countP Call.isDelete ≤ 2147483647 →
      HeapFile.getRecCnt { h := x.scan, f := x.f } =
        ((calls.countP Call.isInsert : Nat) : Int) - ((calls.countP Call.isDelete : Nat) : Int)) := by
  have h0 : f.hdr.recCnt = 0 := createHeapFile_recCnt _ _ _ _ _ _ hc hf
  have h1 := Session.run_recCnt PAGESIZE DPFIXED calls _ sts x hrun
    (fun c st hm hi => hok c st hm (Or.inl hi))
    (by rw [Session.start_recCnt, h0]; decide)
  rw [Session.start_recCnt, h0] at h1
  unfold HeapFile.getRecCnt
  simp only [h1, zero_add, true_and]
  intro hle hmax
  unfold wrap32
  omega

theorem recCnt_within_session_witness :
    createHeapFile 30 20 exDB "a" = (Status.OK, exCreated) ∧
    exCreated.files "a" = some exCreatedFile ∧
    Session.run 30 20 (Session.start exRaw exRaw exCreatedFile) exCalls =
      some ([Status.OK, Status.OK, Status.OK, Status.OK], exSessionEnd) ∧
    HeapFile.getRecCnt { h := exSessionEnd.scan, f := exSessionEnd.f } = 1 :=
  ⟨rfl, rfl, rfl,
   (recCnt_within_session 30 20 exDB exCreated "a" exCreatedFile exRaw exRaw exCalls
      [Status.OK, Status.OK, Status.OK, Status.OK] exSessionEnd rfl rfl rfl
      (by
        intro c st hm _
        simp only [exCalls, List.zip_cons_cons, List.zip_nil_right, List.mem_cons,
          Prod.mk.injEq, List.mem_nil_iff, or_false] at hm
        rcases hm with hm | hm | hm | hm <;> exact hm.2)).1⟩

/-! ### The record count across a reopen -/

/-- Claim C4 fails on the code: a file is created and opened, one record is inserted
(`OK`) and the handle is destroyed; a second handle is opened, inserts one record
(`OK`, on a new page) and reports `getRecCnt() = 2`, but the insert left
`hdrDirtyFlag` false, so its destructor unpins the header page as clean and the
count is not persisted.  A handle opened afterwards reports `getRecCnt() = 1` after
two successful inserts and no delete, while both records are in the file. -/
theorem recCnt_lost_across_reopen :
    (createHeapFile 30 20 exDB "a").1 = Status.OK ∧
    (InsertFileScan.ctor exRaw exCreated "a").1 = Status.OK ∧
    HeapFile.getRecCnt exOpen = 0 ∧
    (InsertFileScan.insertRecord 30 20 exOpen (exRec 1)).1 = Status.OK ∧
    (InsertFileScan.ctor exRaw (exCreated.put "a" (InsertFileScan.dtor exOne)) "a").1 =
      Status.OK ∧
    HeapFile.getRecCnt exReopen = 1 ∧
    (InsertFileScan.insertRecord 30 20 exReopen (exRec 2)).1 = Status.OK ∧
    (InsertFileScan.insertRecord 30 20 exReopen (exRec 2)).2.1 =
      some { pageNo := 3, slotNo := 0 } ∧
    HeapFile.getRecCnt exReopenInserted = 2 ∧
    exReopenInserted.h.hdrDirtyFlag = false ∧
    (InsertFileScan.dtor exReopenInserted).log.head? = some (CacheCall.unPinPage 1 false) ∧
    (InsertFileScan.ctor exRaw exAfterReinsert "a").1 = Status.OK ∧
    HeapFile.getRecCnt exReopenAgain = 1 ∧
    exReopenAgain.f.isChain exReopenAgain.f.hdr.firstPage [2, 3] = true ∧
    exReopenAgain.f.liveCount [2, 3] = 2 := by
  decide

/-! ### Completeness of the scan -/

/-- Claim C2 fails on the code: on the well-formed file of `exFresh` (chain 2, 3, 4,
one record on page 2, none on page 3, one on page 4) a freshly opened scan without
filter returns the record of page 2 and then, having moved to the empty page 3,
returns `NORECORDS`, so that the RIDs returned up to the first status other than `OK`
are only `(2,0)`, while the records of the file are `(2,0)` and `(4,0)`. -/
theorem scanNext_stops_at_empty_page :
    exFresh.f.isChain exFresh.f.hdr.firstPage [2, 3, 4] = true ∧
    (exFresh.f.pages 2).slots = [some (exRec 1)] ∧
    (exFresh.f.pages 3).slots = [none] ∧
    (exFresh.f.pages 4).slots = [some (exRec 3)] ∧
    exFresh.h.curPage = some 2 ∧ exFresh.h.filter = none ∧
    File.matching exFresh.f exFresh.h [2, 3, 4] =
      [{ pageNo := 2, slotNo := 0 }, { pageNo := 4, slotNo := 0 }] ∧
    (HeapFileScan.scanNext 4 exLocals exFresh).map (fun r => (r.1, r.2.1)) =
      some (Status.OK, some { pageNo := 2, slotNo := 0 }) ∧
    (HeapFileScan.scanNext 4 exLocals
        (afterCall exFresh
          ((HeapFileScan.scanNext 4 exLocals exFresh).map (fun r => (r.1, r.2.2))))).map
        (fun r => (r.1, r.2.1)) = some (Status.NORECORDS, none) ∧
    HeapFileScan.scanAll 4 exLocals 5 exFresh = [{ pageNo := 2, slotNo := 0 }] := by
  decide

/-! ### The integer predicate (matchRec) -/

theorem wrap32_of_range (n : Int) (h1 : -2147483648 ≤ n) (h2 : n ≤ 2147483647) :
    wrap32 n = n := by
  unfold wrap32
  omega

theorem Operator.holds_ofInt (op : Operator) (a b : Int) :
    op.holds (Diff.ofInt (a - b)) = op.compareInt a b := by
  unfold Operator.holds Operator.compareInt Diff.ofInt
  rcases lt_trichotomy a b with h | h | h
  · have h1 : a - b < 0 := by omega
    have h2 : ¬ b < a := by omega
    have h3 : a ≠ b := by omega
    have h4 : a ≤ b := by omega
    have h5 : ¬ b ≤ a := by omega
    cases op <;> simp [h1, h, h2, h3, h4, h5]
  · subst h
    cases op <;> simp
  · have h1 : ¬ a - b < 0 := by omega
    have h2 : ¬ a - b = 0 := by omega
    have h3 : ¬ a < b := by omega
    have h4 : a ≠ b := by omega
    have h5 : ¬ a ≤ b := by omega
    have h6 : b ≤ a := by omega
    cases op <;> simp [h1, h2, h, h3, h4, h5, h6]

/-- Behind the guard, `matchRec` applies the operator to the sign of `diff`. -/
theorem HeapFileScan.matchRec_holds (h : HeapFile) (lit : List Nat) (rec : Record)
    (hf : h.filter = some lit)
    (hguard : ¬ wrap32 (wrap32 (h.offset + h.length) - 1) ≥ rec.length) :
    HeapFileScan.matchRec h rec = h.op.holds
      (match h.type with
        | Datatype.INTEGER =>
            Diff.ofInt (wrap32 (int32OfBytes (bytesAt rec.data h.offset.toNat h.length.toNat) -
              int32OfBytes (bytesAt lit 0 h.length.toNat)))
        | Datatype.FLOAT =>
            floatDiff (word32OfBytes (bytesAt rec.data h.offset.toNat h.length.toNat))
              (word32OfBytes (bytesAt lit 0 h.length.toNat))
        | Datatype.STRING =>
            Diff.ofInt (strncmp (rec.data.drop h.offset.toNat) lit h.length.toNat)
        | Datatype.other _ => Diff.zero) := by
  unfold HeapFileScan.matchRec
  rw [hf]
  simp only [hguard, if_false]
  unfold Operator.holds
  cases h.op <;> rfl

/-- The integer predicate follows the numeric order whenever the difference of the
attribute and the literal fits in 32 bits. -/
theorem matchRec_integer_in_range (h : HeapFile) (lit : List Nat) (rec : Record)
    (hf : h.filter = some lit) (ht : h.type = Datatype.INTEGER)
    (hguard : ¬ wrap32 (wrap32 (h.offset + h.length) - 1) ≥ rec.length)
    (hlo : -2147483648 ≤ int32OfBytes (bytesAt rec.data h.offset.toNat h.length.toNat) -
      int32OfBytes (bytesAt lit 0 h.length.toNat))
    (hhi : int32OfBytes (bytesAt rec.data h.offset.toNat h.length.toNat) -
      int32OfBytes (bytesAt lit 0 h.length.toNat) ≤ 2147483647) :
    HeapFileScan.matchRec h rec =
      h.op.compareInt (int32OfBytes (bytesAt rec.data h.offset.toNat h.length.toNat))
        (int32OfBytes (bytesAt lit 0 h.length.toNat)) := by
  rw [HeapFileScan.matchRec_holds h lit rec hf hguard, ht]
  simp only [wrap32_of_range _ hlo hhi, Operator.holds_ofInt]

/-- Claim C11 fails on the code: with the installed filter `attribute > -1` and a
record whose 32-bit attribute is 2147483647, the difference 2147483648 wraps to
-2147483648, `diff` is negative and `matchRec` answers false although
2147483647 > -1; with `<` in place of `>` it answers true. -/
theorem matchRec_integer_overflow :
    (HeapFileScan.startScan exOpen 0 4 Datatype.INTEGER (some [255, 255, 255, 255])
      Operator.GT).1 = Status.OK ∧
    exGreater.h.filter = some [255, 255, 255, 255] ∧ exGreater.h.op = Operator.GT ∧
    int32OfBytes (bytesAt [255, 255, 255, 127] 0 4) = 2147483647 ∧
    int32OfBytes (bytesAt [255, 255, 255, 255] 0 4) = -1 ∧
    HeapFileScan.matchRec exGreater.h { data := [255, 255, 255, 127], length := 4 } = false ∧
    Operator.GT.compareInt 2147483647 (-1) = true ∧
    HeapFileScan.matchRec { exGreater.h with op := Operator.LT }
      { data := [255, 255, 255, 127], length := 4 } = true ∧
    Operator.LT.compareInt 2147483647 (-1) = false := by
  decide

/-! ### The string predicate (matchRec) -/

theorem bytesAt_succ (p : List Nat) (n : Nat) :
    bytesAt p 0 (n + 1) = (p.headD 0 % 256) :: bytesAt p.tail 0 n := by
  unfold bytesAt
  rw [List.range_succ_eq_map, List.map_cons, List.map_map]
  congr 1
  · cases p <;> simp
  · apply List.map_congr_left
    intro i _
    cases p <;> simp

theorem cstring_succ (p : List Nat) (n : Nat) :
    cstring (n + 1) p =
      if p.headD 0 % 256 = 0 then [] else (p.headD 0 % 256) :: cstring n p.tail := by
  unfold cstring
  rw [bytesAt_succ, List.takeWhile_cons]
  by_cases h : p.headD 0 % 256 = 0 <;> simp [h]

theorem lexDiff_cons_self (a : Nat) (x y : List Nat) :
    lexDiff (a :: x) (a :: y) = lexDiff x y := by
  simp [lexDiff]

theorem lexDiff_eq_zero (x y : List Nat) : lexDiff x y = Diff.zero ↔ x = y := by
  induction x generalizing y with
  | nil => cases y <;> simp [lexDiff]
  | cons a x ih =>
      cases y with
      | nil => simp [lexDiff]
      | cons b y =>
          simp only [lexDiff, List.cons.injEq]
          split_ifs with h1 h2
          · simp; omega
          · simp; omega
          · have : a = b := by omega
            simp [this, ih]

theorem Diff.ofInt_sub_ne (c1 c2 : Nat) (x y : List Nat) (hne : c1 ≠ c2) :
    Diff.ofInt ((c1 : Int) - (c2 : Int)) = lexDiff (c1 :: x) (c2 :: y) := by
  simp only [lexDiff, Diff.ofInt]
  split_ifs <;> first | rfl | omega

/-- `strncmp` compares the two C strings lexicographically. -/
theorem strncmp_cstring (n : Nat) : ∀ (a b : List Nat),
    Diff.ofInt (strncmp a b n) = lexDiff (cstring n a) (cstring n b) := by
  induction n with
  | zero => intro a b; simp [strncmp, cstring, bytesAt, lexDiff, Diff.ofInt]
  | succ n ih =>
      intro a b
      rw [cstring_succ, cstring_succ]
      unfold strncmp
      simp only
      by_cases hne : a.headD 0 % 256 ≠ b.headD 0 % 256
      · rw [if_pos hne]
        by_cases ha : a.headD 0 % 256 = 0
        · have hb : ¬ b.headD 0 % 256 = 0 := by omega
          rw [if_pos ha, if_neg hb]
          simp only [lexDiff, Diff.ofInt]
          rw [if_pos (by omega)]
        · by_cases hb : b.headD 0 % 256 = 0
          · rw [if_neg ha, if_pos hb]
            simp only [lexDiff, Diff.ofInt]
            rw [if_neg (by omega), if_neg (by omega)]
          · rw [if_neg ha, if_neg hb]
            exact Diff.ofInt_sub_ne _ _ _ _ hne
      · have heq : a.headD 0 % 256 = b.headD 0 % 256 := by omega
        rw [if_neg hne]
        by_cases ha : a.headD 0 % 256 = 0
        · rw [if_pos ha, if_pos ha, if_pos (heq ▸ ha)]
          simp [lexDiff, Diff.ofInt]
        · rw [if_neg ha, if_neg ha, if_neg (heq ▸ ha), ← heq, lexDiff_cons_self]
          exact ih _ _

/-- When the first string has no zero byte among its `n` bytes, `strncmp` compares
all `n` bytes. -/
theorem strncmp_full (n : Nat) : ∀ (a b : List Nat),
    (∀ c ∈ bytesAt a 0 n, c ≠ 0) →
    Diff.ofInt (strncmp a b n) = lexDiff (bytesAt a 0 n) (bytesAt b 0 n) := by
  induction n with
  | zero => intro a b _; simp [strncmp, bytesAt, lexDiff, Diff.ofInt]
  | succ n ih =>
      intro a b hz
      rw [bytesAt_succ] at hz
      have ha : a.headD 0 % 256 ≠ 0 := hz _ (List.mem_cons_self _ _)
      have hrest : ∀ c ∈ bytesAt a.tail 0 n, c ≠ 0 := fun c hc =>
        hz c (List.mem_cons_of_mem _ hc)
      rw [bytesAt_succ, bytesAt_succ]
      unfold strncmp
      simp only
      by_cases hne : a.headD 0 % 256 ≠ b.headD 0 % 256
      · rw [if_pos hne]
        exact Diff.ofInt_sub_ne _ _ _ _ hne
      · have heq : a.headD 0 % 256 = b.headD 0 % 256 := by omega
        rw [if_neg hne, if_neg ha, ← heq, lexDiff_cons_self]
        exact ih _ _ hrest

/-- Claim C12, as amended: for an installed STRING filter and a record of length at
least `offset + length`, `matchRec` applies the operator to the lexicographic
comparison (by unsigned byte value) of the record's bytes from `offset` with the
literal's bytes, each taken up to its first zero byte and at most `length` bytes;
with EQ it is true exactly if these two byte strings are equal; and when none of the
record's `length` bytes is zero, the comparison is of the `length` record bytes with
the first `length` literal bytes. -/
theorem matchRec_string (h : HeapFile) (lit : List Nat) (rec : Record)
    (hf : h.filter = some lit) (ht : h.type = Datatype.STRING)
    (hoff : 0 ≤ h.offset) (hlen : 1 ≤ h.length)
    (hfit : h.offset + h.length ≤ rec.length) (hmax : rec.length ≤ 2147483647) :
    HeapFileScan.matchRec h rec =
      h.op.holds (lexDiff (cstring h.length.toNat (rec.data.drop h.offset.toNat))
        (cstring h.length.toNat lit)) ∧
    (h.op = Operator.EQ →
      (HeapFileScan.matchRec h rec = true ↔
        cstring h.length.toNat (rec.data.drop h.offset.toNat) = cstring h.length.toNat lit)) ∧
    ((∀ c ∈ bytesAt (rec.data.drop h.offset.toNat) 0 h.length.toNat, c ≠ 0) →
      HeapFileScan.matchRec h rec =
        h.op.holds (lexDiff (bytesAt (rec.data.drop h.offset.toNat) 0 h.length.toNat)
          (bytesAt lit 0 h.length.toNat)) ∧
      (h.op = Operator.EQ →
        (HeapFileScan.matchRec h rec = true ↔
          bytesAt (rec.data.drop h.offset.toNat) 0 h.length.toNat =
            bytesAt lit 0 h.length.toNat))) := by
  have hguard : ¬ wrap32 (wrap32 (h.offset + h.length) - 1) ≥ rec.length := by
    rw [wrap32_of_range (h.offset + h.length) (by omega) (by omega),
      wrap32_of_range _ (by omega) (by omega)]
    omega
  have hm := HeapFileScan.matchRec_holds h lit rec hf hguard
  rw [ht] at hm
  simp only at hm
  refine ⟨?_, ?_, ?_⟩
  · rw [hm, strncmp_cstring]
  · intro hop
    rw [hm, strncmp_cstring, hop]
    simp only [Operator.holds, beq_iff_eq]
    exact lexDiff_eq_zero _ _
  · intro hz
    refine ⟨?_, ?_⟩
    · rw [hm, strncmp_full _ _ _ hz]
    · intro hop
      rw [hm, strncmp_full _ _ _ hz, hop]
      simp only [Operator.holds, beq_iff_eq]
      exact lexDiff_eq_zero _ _

theorem matchRec_string_witness :
    exString.h.filter = some [97, 0, 99] ∧ exString.h.type = Datatype.STRING ∧
    HeapFileScan.matchRec exString.h { data := [97, 98, 99], length := 3 } =
      exString.h.op.holds (lexDiff (cstring 3 [97, 98, 99]) (cstring 3 [97, 0, 99])) ∧
    HeapFileScan.matchRec exString.h { data := [97, 98, 99], length := 3 } =
      exString.h.op.holds (lexDiff (bytesAt [97, 98, 99] 0 3) (bytesAt [97, 0, 99] 0 3)) :=
  ⟨by decide, by decide,
   (matchRec_string exString.h [97, 0, 99] { data := [97, 98, 99], length := 3 }
      (by decide) (by decide) (by decide) (by decide) (by decide) (by decide)).1,
   ((matchRec_string exString.h [97, 0, 99] { data := [97, 98, 99], length := 3 }
      (by decide) (by decide) (by decide) (by decide) (by decide) (by decide)).2.2
      (by decide)).1⟩

/-- Claim C12 as stated fails: with the installed STRING filter of length 3 and
literal `'a',0,'c'` under EQ, the record bytes `'a',0,'b'` match, although the third
byte pair differs: `strncmp` stops at the zero byte. -/
theorem matchRec_string_stops_at_zero :
    (HeapFileScan.startScan exOpen 0 3 Datatype.STRING (some [97, 0, 99]) Operator.EQ).1 =
      Status.OK ∧
    exString.h.filter = some [97, 0, 99] ∧ exString.h.type = Datatype.STRING ∧
    exString.h.op = Operator.EQ ∧ exString.h.offset = 0 ∧ exString.h.length = 3 ∧
    bytesAt [97, 0, 98] 0 3 ≠ bytesAt [97, 0, 99] 0 3 ∧
    HeapFileScan.matchRec exString.h { data := [97, 0, 98], length := 3 } = true := by
  decide

/-! ### The guard of matchRec -/

/-- When `offset + length - 1` is representable in 32 bits, the guard of `matchRec`
rejects every record that is too short, and behind the guard every byte index from
`offset` to `offset + length - 1` lies inside the record. -/
theorem matchRec_guard_in_range (h : HeapFile) (lit : List Nat) (rec : Record)
    (hf : h.filter = some lit) (hoff : 0 ≤ h.offset) (hlen : 1 ≤ h.length)
    (hsum : h.offset + h.length - 1 ≤ 2147483647) :
    (h.offset + h.length - 1 ≥ rec.length → HeapFileScan.matchRec h rec = false) ∧
    (¬ wrap32 (wrap32 (h.offset + h.length) - 1) ≥ rec.length →
      ∀ i : Int, h.offset ≤ i → i ≤ h.offset + h.length - 1 → i < rec.length) := by
  have hw : wrap32 (wrap32 (h.offset + h.length) - 1) = h.offset + h.length - 1 := by
    unfold wrap32
    omega
  constructor
  · intro hbeyond
    unfold HeapFileScan.matchRec
    rw [hf]
    simp only
    rw [if_pos (by rw [hw]; exact hbeyond)]
  · intro hg i _ hi
    rw [hw] at hg
    omega

/-- Claim C19 fails on the code: `startScan` installs a STRING filter with offset
2147483647 and length 2; for a record of three bytes `offset + length - 1` is far
beyond the record, yet the 32-bit sum wraps to a negative number, the guard lets the
record pass and `matchRec` goes on to compare bytes at index 2147483647 (here with
the answer true) instead of returning false. -/
theorem matchRec_guard_overflow :
    (HeapFileScan.startScan exOpen 2147483647 2 Datatype.STRING (some [0]) Operator.EQ).1 =
      Status.OK ∧
    exFarOffset.h.filter = some [0] ∧ exFarOffset.h.offset = 2147483647 ∧
    exFarOffset.h.length = 2 ∧
    exFarOffset.h.offset + exFarOffset.h.length - 1 ≥ 3 ∧
    wrap32 (wrap32 (exFarOffset.h.offset + exFarOffset.h.length) - 1) = -2147483648 ∧
    HeapFileScan.matchRec exFarOffset.h { data := [1, 2, 3], length := 3 } = true := by
  decide

/-! ### The end of a scan -/

/-- Claim C13 fails on the code: after two inserts of ten bytes into an empty file
and `startScan` without filter, three `scanNext` calls return `OK` with (2,0), `OK`
with (2,1) and then `NORECORDS`, not `FILEEOF`; `FILEEOF` is what `scanNext` returns
when it starts on an empty first page. -/
theorem scanNext_end_status :
    (createHeapFile 1024 20 exDB "a").1 = Status.OK ∧
    (Session.run 1024 20 (Session.start exRaw exRaw exCreatedBigFile) exPrepare).map
      (fun r => r.1) = some [Status.OK, Status.OK, Status.OK] ∧
    (HeapFileScan.scanCalls [(4, exLocals), (4, exLocals), (4, exLocals)] exTwoRecords).map
      (fun o => o.1) =
      some [(Status.OK, some { pageNo := 2, slotNo := 0 }),
            (Status.OK, some { pageNo := 2, slotNo := 1 }),
            (Status.NORECORDS, none)] ∧
    (HeapFileScan.scanNext 4 exLocals (HeapFileScan.endScan exOpen).2).map (fun r => r.1) =
      some Status.FILEEOF := by
  decide

/-- Claim C14 fails on the code: the scan is on record (2,0) when `markScan` is
called; two further `scanNext` calls return (3,0) and then `NORECORDS`, which unpins
page 3 but leaves `curPage` set; `resetScan` then tries to unpin page 3 again and
returns `PAGENOTPINNED` without restoring the position, and the `scanNext` after it
returns `PAGENOTPINNED` instead of (3,0). -/
theorem resetScan_after_end :
    exScan1.h.curRec = { pageNo := 2, slotNo := 0 } ∧
    (HeapFileScan.markScan exScan1).1 = Status.OK ∧
    (HeapFileScan.scanCalls [(4, exLocals), (4, exLocals)] exMarked).map (fun o => o.1) =
      some [(Status.OK, some { pageNo := 3, slotNo := 0 }), (Status.NORECORDS, none)] ∧
    exMarkedEnd.h.curPage = some 3 ∧ exMarkedEnd.f.pinCnt 3 = 0 ∧
    (HeapFileScan.resetScan exMarkedEnd).1 = Status.PAGENOTPINNED ∧
    (HeapFileScan.resetScan exMarkedEnd).2.h.curRec = { pageNo := 3, slotNo := 0 } ∧
    (HeapFileScan.scanNext 4 exLocals (HeapFileScan.resetScan exMarkedEnd).2).map
      (fun r => (r.1, r.2.1)) = some (Status.PAGENOTPINNED, none) := by
  decide

/-- Claim C16 fails on the code: when `scanNext` reports the end of the scan it has
unpinned page 3 but `curPage` still points at it, so the handle holds a page without
a pin; the `endScan` that follows issues one more `unPinPage` for page 3, which the
cache answers with `PAGENOTPINNED`. -/
theorem endScan_after_end_unpins_again :
    (HeapFileScan.scanCalls [(4, exLocals), (4, exLocals), (4, exLocals)] exScan).map
      (fun o => o.1) =
      some [(Status.OK, some { pageNo := 2, slotNo := 0 }),
            (Status.OK, some { pageNo := 3, slotNo := 0 }),
            (Status.NORECORDS, none)] ∧
    exScanEnd.h.curPage = some 3 ∧ exScanEnd.h.curPageNo = 3 ∧ exScanEnd.f.pinCnt 3 = 0 ∧
    exScanEnd.f.log.head? = some (CacheCall.unPinPage 3 false) ∧
    (HeapFileScan.endScan exScanEnd).1 = Status.PAGENOTPINNED ∧
    (HeapFileScan.endScan exScanEnd).2.f.log.head? = some (CacheCall.unPinPage 3 false) ∧
    (HeapFileScan.endScan exScanEnd).2.f.log.length = exScanEnd.f.log.length + 1 := by
  decide

/-! ### Inserting through a freshly opened handle -/

/-- Claim C17 fails on the code: on the well-formed two-page file (chain 2, 3) a
freshly opened insert handle has its cursor on page 2; an insert that finds no room
there appends page 4 behind page 2, so that the chain from `header.firstPage` becomes
2, 4 and page 3, which still holds its record, is no longer reachable. -/
theorem insertRecord_orphans_page :
    exReopenTwo.f.isChain exReopenTwo.f.hdr.firstPage [2, 3] = true ∧
    exReopenTwo.h.curPage = some 2 ∧
    (InsertFileScan.insertRecord 30 20 exReopenTwo (exRec 3)).1 = Status.OK ∧
    (InsertFileScan.insertRecord 30 20 exReopenTwo (exRec 3)).2.1 =
      some { pageNo := 4, slotNo := 0 } ∧
    (InsertFileScan.insertRecord 30 20 exReopenTwo (exRec 3)).2.2.f.isChain
      (InsertFileScan.insertRecord 30 20 exReopenTwo (exRec 3)).2.2.f.hdr.firstPage [2, 4] = true ∧
    ((InsertFileScan.insertRecord 30 20 exReopenTwo (exRec 3)).2.2.f.pages 2).nextPage = 4 ∧
    (3 : Int) ∉ [(2 : Int), 4] ∧
    ((InsertFileScan.insertRecord 30 20 exReopenTwo (exRec 3)).2.2.f.pages 3).slots =
      [some (exRec 2)] := by
  decide

/-! ### Deleting without a record under the cursor -/

/-- Claim C18 fails on the code: right after open (`curRec = NULLRID`) on a file with
two live records and `recCnt = 2`, `deleteRecord` returns `INVALIDSLOTNO` and deletes
nothing, yet `recCnt` is decremented to 1 and the header dirty flag is set. -/
theorem deleteRecord_failure_decrements :
    exScan.h.curRec = NULLRID ∧ exScan.h.hdrDirtyFlag = false ∧
    exScan.f.isChain exScan.f.hdr.firstPage [2, 3] = true ∧
    exScan.f.hdr.recCnt = 2 ∧ exScan.f.liveCount [2, 3] = 2 ∧
    (HeapFileScan.deleteRecord exScan).map
      (fun r => (r.1, r.2.f.hdr.recCnt, r.2.f.liveCount [2, 3], r.2.h.hdrDirtyFlag)) =
      some (Status.INVALIDSLOTNO, 1, 2, true) := by
  decide

/-! ### Creating a file that exists -/

/-- Claim C20 fails on the code: `createHeapFile` on the existing, closed file `"a"`
returns `FILEEXISTS` but leaves the file open (open count 1 instead of 0), so that a
`destroyHeapFile` that succeeded before the call is refused with `FILEOPEN` after
it. -/
theorem createHeapFile_existing_left_open :
    (exCreated.files "a").map (fun f => f.openCnt) = some 0 ∧
    (createHeapFile 30 20 exCreated "a").1 = Status.FILEEXISTS ∧
    ((createHeapFile 30 20 exCreated "a").2.files "a").map (fun f => f.openCnt) = some 1 ∧
    (destroyHeapFile exCreated "a").1 = Status.OK ∧
    (destroyHeapFile (createHeapFile 30 20 exCreated "a").2 "a").1 = Status.FILEOPEN := by
  decide

/-! ### Create, then open -/

/-- The file that `createHeapFile` builds from an empty file of the volume, with
header page `firstNo` and data page `firstNo + 1`. -/
theorem createHeapFile_fresh (PAGESIZE DPFIXED : Nat) (db : DB) (fileName : String)
    (hnone : db.files fileName = none) (hquota : 2 ≤ db.quota) (hno : 0 ≤ db.firstNo) :
    (createHeapFile PAGESIZE DPFIXED db fileName).1 = Status.OK ∧
    ∃ f, (createHeapFile PAGESIZE DPFIXED db fileName).2.files fileName = some f ∧
      (∀ p, f.pinCnt p = 0) ∧ f.openCnt = 0 ∧
      f.firstPageNo = db.firstNo ∧ f.valid db.firstNo = true ∧
      f.valid (db.firstNo + 1) = true ∧
      f.hdr = { fileName := fileName, firstPage := db.firstNo + 1,
                lastPage := db.firstNo + 1, pageCnt := 1, recCnt := 0 } ∧
      f.pages (db.firstNo + 1) = Page.init PAGESIZE DPFIXED (db.firstNo + 1) := by
  obtain ⟨files, firstNo, quota⟩ := db
  simp only at hnone hquota hno
  obtain ⟨n, rfl⟩ : ∃ n, quota = n + 2 := ⟨quota - 2, by omega⟩
  have hne : firstNo ≠ -1 := by omega
  have hne3 : firstNo ≠ firstNo + 1 := by omega
  unfold createHeapFile
  simp only [DB.openFile, DB.createFile, hnone, DB.put, File.empty, if_true, ne_eq,
    reduceCtorEq, not_false_eq_true, not_true_eq_false, if_false, BufMgr.allocPage,
    BufMgr.unPinPage, BufMgr.flushFile, DB.closeFile, File.close, File.dropFrames,
    File.writeBack, setAt_same, Nat.lt_add_one,
    Nat.add_one_sub_one, hne, true_and, setAt_other _ _ _ _ hne3, Nat.lt_one_iff, zero_add,
    Nat.sub_self, Nat.lt_irrefl, Nat.zero_lt_one, Nat.pos_of_ne_zero]
  refine ⟨_, rfl, ?_, rfl, rfl, ?_, ?_, ?_, ?_⟩
  · intro p
    simp only [setAt]
    split_ifs <;> rfl
  · simp [setAt, hne3]
  · simp [setAt]
  · simp
  · simp [setAt]

/-- Opening a file whose header page and first data page exist succeeds and leaves
the cursor on the first data page. -/
theorem HeapFile.openBody_ok (raw : HeapFile) (f : File)
    (hh : f.valid f.firstPageNo = true) (hd : f.valid f.hdr.firstPage = true) :
    (HeapFile.openBody raw f).1 = Status.OK ∧
    (HeapFile.openBody raw f).2.f =
      (BufMgr.readPage (BufMgr.readPage f f.firstPageNo).2 f.hdr.firstPage).2 ∧
    (HeapFile.openBody raw f).2.h.curPage = some f.hdr.firstPage ∧
    (HeapFile.openBody raw f).2.h.curPageNo = f.hdr.firstPage ∧
    (HeapFile.openBody raw f).2.h.headerPageNo = f.firstPageNo ∧
    (HeapFile.openBody raw f).2.h.hdrDirtyFlag = false ∧
    (HeapFile.openBody raw f).2.h.curDirtyFlag = false ∧
    (HeapFile.openBody raw f).2.h.curRec = NULLRID := by
  unfold HeapFile.openBody
  dsimp only
  rw [if_neg (by simp [hh]), if_neg (by simp [hd])]
  simp

/-- Claim C15: for a name under which the volume has no file (and a volume that can
allocate the two pages), `createHeapFile` returns `OK` and leaves the file closed
with no page pinned; the constructor then opens it with `recCnt = 0`,
`pageCnt = 1`, `firstPage = lastPage =` the one data page, which holds no record
and ends the chain, the cursor pinned once on that page with a clean dirty flag and
`curRec = NULLRID`, and the header page pinned once. -/
theorem createHeapFile_then_open (PAGESIZE DPFIXED : Nat) (raw : HeapFile) (db : DB)
    (fileName : String)
    (hnone : db.files fileName = none) (hquota : 2 ≤ db.quota) (hno : 0 ≤ db.firstNo) :
    (createHeapFile PAGESIZE DPFIXED db fileName).1 = Status.OK ∧
    (∃ f, (createHeapFile PAGESIZE DPFIXED db fileName).2.files fileName = some f ∧
      (∀ p, f.pinCnt p = 0) ∧ f.openCnt = 0) ∧
    ∃ s, HeapFile.ctor raw (createHeapFile PAGESIZE DPFIXED db fileName).2 fileName
        = (Status.OK, some s) ∧
      s.f.hdr.recCnt = 0 ∧ s.f.hdr.pageCnt = 1 ∧
      s.f.hdr.firstPage = db.firstNo + 1 ∧ s.f.hdr.lastPage = db.firstNo + 1 ∧
      (s.f.pages (db.firstNo + 1)).slots = [] ∧
      (s.f.pages (db.firstNo + 1)).nextPage = -1 ∧
      s.h.curPage = some (db.firstNo + 1) ∧ s.h.curPageNo = db.firstNo + 1 ∧
      s.f.pinCnt (db.firstNo + 1) = 1 ∧
      s.h.headerPageNo = db.firstNo ∧ s.f.pinCnt db.firstNo = 1 ∧
      (∀ p, p ≠ db.firstNo → p ≠ db.firstNo + 1 → s.f.pinCnt p = 0) ∧
      s.h.hdrDirtyFlag = false ∧ s.h.curDirtyFlag = false ∧ s.h.curRec = NULLRID := by
  obtain ⟨hst, f, hf, hpin, hopen, hfirst, hvh, hvd, hhdr, hpage⟩ :=
    createHeapFile_fresh PAGESIZE DPFIXED db fileName hnone hquota hno
  have hne3 : db.firstNo ≠ db.firstNo + 1 := by omega
  obtain ⟨g, hg⟩ : ∃ g : File, g = { f with openCnt := f.openCnt + 1 } := ⟨_, rfl⟩
  have gfirst : g.firstPageNo = db.firstNo := by rw [hg]; exact hfirst
  have ghdr : g.hdr = f.hdr := by rw [hg]
  rw [hhdr] at ghdr
  have gfp : g.hdr.firstPage = db.firstNo + 1 := by rw [ghdr]
  have gvh : g.valid db.firstNo = true := by rw [hg]; exact hvh
  have gvd : g.valid (db.firstNo + 1) = true := by rw [hg]; exact hvd
  have gpin : ∀ p, g.pinCnt p = 0 := by rw [hg]; exact hpin
  have gpage : g.pages (db.firstNo + 1) = Page.init PAGESIZE DPFIXED (db.firstNo + 1) := by
    rw [hg]; exact hpage
  obtain ⟨o1, o2, o3, o4, o5, o6, o7, o8⟩ :=
    HeapFile.openBody_ok raw g (by rw [gfirst]; exact gvh) (by rw [gfp]; exact gvd)
  rw [gfirst, gfp] at o2
  rw [gfp] at o3 o4
  rw [gfirst] at o5
  refine ⟨hst, ⟨f, hf, hpin, hopen⟩, (HeapFile.openBody raw g).2, ?_, ?_⟩
  · unfold HeapFile.ctor
    simp only [DB.openFile, hf, DB.put_files_same, ne_eq, not_true_eq_false, if_false, ← hg, o1]
  · rw [o2]
    refine ⟨?_, ?_, ?_, ?_, ?_, ?_, o3, o4, ?_, o5, ?_, ?_, o6, o7, o8⟩
    · simp [ghdr]
    · simp [ghdr]
    · simp [ghdr]
    · simp [ghdr]
    · simp [gpage, Page.init]
    · simp [gpage, Page.init]
    · simp [BufMgr.readPage, gvh, gvd, gpin, setAt]
    · simp [BufMgr.readPage, gvh, gvd, gpin, setAt, hne3]
    · intro p h1 h2
      simp [BufMgr.readPage, gvh, gvd, gpin, setAt, h1, h2]

theorem createHeapFile_then_open_witness :
    exDB.files "a" = none ∧ 2 ≤ exDB.quota ∧ 0 ≤ exDB.firstNo ∧
    (createHeapFile 1024 20 exDB "a").1 = Status.OK ∧
    (∃ f, (createHeapFile 1024 20 exDB "a").2.files "a" = some f ∧
      (∀ p, f.pinCnt p = 0) ∧ f.openCnt = 0) ∧
    ∃ s, HeapFile.ctor exRaw (createHeapFile 1024 20 exDB "a").2 "a"
        = (Status.OK, some s) ∧
      s.f.hdr.recCnt = 0 ∧ s.f.hdr.pageCnt = 1 ∧
      s.f.hdr.firstPage = exDB.firstNo + 1 ∧ s.f.hdr.lastPage = exDB.firstNo + 1 ∧
      (s.f.pages (exDB.firstNo + 1)).slots = [] ∧
      (s.f.pages (exDB.firstNo + 1)).nextPage = -1 ∧
      s.h.curPage = some (exDB.firstNo + 1) ∧ s.h.curPageNo = exDB.firstNo + 1 ∧
      s.f.pinCnt (exDB.firstNo + 1) = 1 ∧
      s.h.headerPageNo = exDB.firstNo ∧ s.f.pinCnt exDB.firstNo = 1 ∧
      (∀ p, p ≠ exDB.firstNo → p ≠ exDB.firstNo + 1 → s.f.pinCnt p = 0) ∧
      s.h.hdrDirtyFlag = false ∧ s.h.curDirtyFlag = false ∧ s.h.curRec = NULLRID :=
  ⟨rfl, by decide, by decide,
   createHeapFile_then_open 1024 20 exRaw exDB "a" rfl (by decide) (by decide)⟩

end HeapFileManager
